import Mathlib

/-!
Shallow embedding of the hantara-api send pipeline: suppression engine,
template renderer, HTML tracking rewriter, accept-and-enqueue route,
job worker quota handling, and the open-tracking ingress endpoint.

Databases are modelled as Lean lists of row structures; SQL reads and
writes become list operations with the same observable behaviour
(`find?` for `findFirst`, `filter` for `WHERE`, `map` over an id match
for `UPDATE ... WHERE id = ?`, append for `INSERT`).  Randomly generated
nanoid values are supplied by an injected generator `gen : Nat → String`,
indexed in the order the source calls `nanoid()`.  Timestamps are `Nat`.
-/

namespace Hantara

/-- Whitespace characters of the JavaScript `\s` class and `trim`
(ASCII subset; rare Unicode space characters are not modelled). -/
def jsWsChar (c : Char) : Bool :=
  c = ' ' || c = '\t' || c = '\n' || c = '\r' || c = '\x0b' || c = '\x0c'

/-- Embedding of JavaScript `String.prototype.toLowerCase` (character-wise
lower-casing; written out because core's `String.toLower` does not reduce
in the kernel). -/
def jsToLower (s : String) : String := String.mk (s.toList.map Char.toLower)

/-- Embedding of JavaScript `String.prototype.trim`. -/
def jsTrim (s : String) : String :=
  String.mk (((s.toList.dropWhile jsWsChar).reverse.dropWhile jsWsChar).reverse)

/-- Lower-case then trim, as the suppression helpers do via
`email.toLowerCase().trim()`. -/
def normEmail (e : String) : String := jsTrim (jsToLower e)

/-- Embedding of the JavaScript `x || null` default on an optional string:
`undefined` and the falsy empty string both become `null`. -/
def jsOrNullStr (o : Option String) : Option String :=
  match o with
  | some s => if s = "" then none else some s
  | none => none

/-- Structured model of the JSON metadata blob stored on a suppression row.
Fields the suppression engine itself reads or writes are explicit; other
caller-supplied JSON keys are kept opaque in `extra` (caller keys colliding
with the explicit field names are not modelled). -/
structure SuppMeta where
  softBounceCount : Option Int := none
  firstBounceAt : Option Nat := none
  lastBounceAt : Option Nat := none
  upgradedAt : Option Nat := none
  upgradeReason : Option String := none
  autoSuppressed : Bool := false
  extra : List (String × String) := []
  deriving Repr, DecidableEq

/-- Row of the `email_suppression` table (the columns the core reads or
writes; the schema has a unique index on `(userId, email)`). -/
structure SuppressionRow where
  id : String
  userId : String
  domainId : Option String := none
  email : String
  reason : String
  sourceEventId : Option String := none
  meta : Option SuppMeta := none
  deriving Repr, DecidableEq

/-- Reasons that block sending; `soft_bounce` is deliberately absent. -/
def BLOCKING_REASONS : List String := ["hard_bounce", "complaint", "unsubscribe", "manual"]

/-- Domain-scope disjunct built by `checkSuppression`: with a (truthy)
supplied domain id the SQL is `domainId IS NULL OR domainId = ?`; with no
supplied id — or the falsy empty string — it is `domainId IS NULL` alone. -/
def suppDomainCond (domainId : Option String) (rowDomainId : Option String) : Bool :=
  match domainId with
  | some d =>
      if d = "" then decide (rowDomainId = none)
      else decide (rowDomainId = none) || decide (rowDomainId = some d)
  | none => decide (rowDomainId = none)

/-- Embedding of `checkSuppression(userId, emails, domainId?)`: selects the
emails of rows matching `userId`, a lower-cased input email, a blocking
reason, and the domain scope. -/
def checkSuppression (rows : List SuppressionRow) (userId : String)
    (emails : List String) (domainId : Option String := none) : List String :=
  if emails.isEmpty then []
  else
    let normalizedEmails := emails.map jsToLower
    (rows.filter (fun r =>
      decide (r.userId = userId) &&
      decide (r.email ∈ normalizedEmails) &&
      decide (r.reason ∈ BLOCKING_REASONS) &&
      suppDomainCond domainId r.domainId)).map (fun r => r.email)

/-- Result shape of `addToSuppression`. -/
structure SuppAddResult where
  id : String
  email : String
  reason : String
  deriving Repr, DecidableEq

/-- The `findFirst` lookup shared by the add/soft-bounce helpers:
first row with the given user id and (already normalized) email. -/
def findSuppRow (rows : List SuppressionRow) (userId normalizedEmail : String) :
    Option SuppressionRow :=
  rows.find? (fun r => decide (r.userId = userId) && decide (r.email = normalizedEmail))

/-- Embedding of `addToSuppression`: lower-trim the email, return any
existing `(userId, email)` row unchanged, otherwise insert. -/
def addToSuppression (rows : List SuppressionRow) (newId : String)
    (userId email reason : String) (sourceEventId : Option String := none)
    (domainId : Option String := none) (meta : Option SuppMeta := none) :
    List SuppressionRow × SuppAddResult :=
  let normalizedEmail := normEmail email
  match findSuppRow rows userId normalizedEmail with
  | some existing => (rows, ⟨existing.id, existing.email, existing.reason⟩)
  | none =>
      (rows ++ [{ id := newId, userId := userId, domainId := jsOrNullStr domainId,
                  email := normalizedEmail, reason := reason,
                  sourceEventId := jsOrNullStr sourceEventId, meta := meta }],
       ⟨newId, normalizedEmail, reason⟩)

/-- Result shape of `addToSuppressionInternal` (the events-route copy). -/
structure SuppInternalResult where
  id : String
  email : String
  reason : String
  alreadyExists : Bool
  deriving Repr, DecidableEq

/-- Embedding of `addToSuppressionInternal` from the events route: same
check-then-insert as `addToSuppression`, plus an `alreadyExists` flag. -/
def addToSuppressionInternal (rows : List SuppressionRow) (newId : String)
    (userId email reason : String) (sourceEventId : Option String := none)
    (domainId : Option String := none) (meta : Option SuppMeta := none) :
    List SuppressionRow × SuppInternalResult :=
  let normalizedEmail := normEmail email
  match findSuppRow rows userId normalizedEmail with
  | some existing => (rows, ⟨existing.id, normalizedEmail, existing.reason, true⟩)
  | none =>
      (rows ++ [{ id := newId, userId := userId, domainId := jsOrNullStr domainId,
                  email := normalizedEmail, reason := reason,
                  sourceEventId := jsOrNullStr sourceEventId, meta := meta }],
       ⟨newId, normalizedEmail, reason, false⟩)

/-- Threshold at which accumulated soft bounces are upgraded. -/
def SOFT_BOUNCE_THRESHOLD : Int := 3

/-- Result shape of `handleSoftBounce`. -/
structure SoftBounceResult where
  id : String
  email : String
  reason : String
  upgraded : Bool
  deriving Repr, DecidableEq

/-- Embedding of the JavaScript read
`(metadata.softBounceCount as number) || 1`: an absent count and the
falsy `0` both fall back to `1` (note `||`, not `??`). -/
def softBounceCountOrOne (m : SuppMeta) : Int :=
  match m.softBounceCount with
  | some n => if n = 0 then 1 else n
  | none => 1

/-- SQL `UPDATE ... WHERE id = ?` on the suppression table. -/
def updateRowById (rows : List SuppressionRow) (rowId : String)
    (f : SuppressionRow → SuppressionRow) : List SuppressionRow :=
  rows.map (fun r => if r.id = rowId then f r else r)

/-- Embedding of `handleSoftBounce`: insert a fresh `soft_bounce` row with
count 1; leave non-`soft_bounce` rows untouched; otherwise bump the count
and upgrade the row to `hard_bounce` exactly when the new count reaches
the threshold. -/
def handleSoftBounce (rows : List SuppressionRow) (newId : String) (now : Nat)
    (userId email : String) (sourceEventId : Option String := none)
    (domainId : Option String := none)
    (bounceDetails : List (String × String) := []) :
    List SuppressionRow × SoftBounceResult :=
  let normalizedEmail := normEmail email
  match findSuppRow rows userId normalizedEmail with
  | some existing =>
      if existing.reason ≠ "soft_bounce" then
        (rows, ⟨existing.id, existing.email, existing.reason, false⟩)
      else
        let m := existing.meta.getD {}
        let newCount : Int := softBounceCountOrOne m + 1
        if newCount ≥ SOFT_BOUNCE_THRESHOLD then
          (updateRowById rows existing.id (fun r =>
             { r with reason := "hard_bounce",
                      meta := some { m with
                        extra := m.extra ++ bounceDetails,
                        softBounceCount := some newCount,
                        upgradedAt := some now,
                        upgradeReason := some ("Upgraded after " ++ toString newCount
                          ++ " consecutive soft bounces") } }),
           ⟨existing.id, normalizedEmail, "hard_bounce", true⟩)
        else
          (updateRowById rows existing.id (fun r =>
             { r with meta := some { m with
                        extra := m.extra ++ bounceDetails,
                        softBounceCount := some newCount,
                        lastBounceAt := some now } }),
           ⟨existing.id, normalizedEmail, "soft_bounce", false⟩)
  | none =>
      (rows ++ [{ id := newId, userId := userId, domainId := jsOrNullStr domainId,
                  email := normalizedEmail, reason := "soft_bounce",
                  sourceEventId := jsOrNullStr sourceEventId,
                  meta := some { softBounceCount := some 1, firstBounceAt := some now,
                                 extra := bounceDetails } }],
       ⟨newId, normalizedEmail, "soft_bounce", false⟩)

/-- Outcome of the auto-suppression dispatch in `POST /events`. -/
inductive SuppressionOutcome where
  | noSuppression
  | added (r : SuppInternalResult)
  | softBounced (r : SoftBounceResult)
  deriving Repr, DecidableEq

/-- Embedding of the auto-suppression dispatch of the `POST /events`
handler (the event-row insert itself is modelled separately): `complained`
and `unsubscribed` add permanent suppressions; `bounced` consults
`metadata.bounceType || 'hard_bounce'` and either accumulates a soft
bounce or adds a `hard_bounce` row. -/
def postEventSuppression (rows : List SuppressionRow)
    (userId normalizedEmail eventType : String) (bounceType : Option String)
    (eventId : String) (domainId : Option String) (now : Nat) (newId : String)
    (metaExtra : List (String × String)) :
    List SuppressionRow × SuppressionOutcome :=
  if eventType = "complained" then
    let p := addToSuppressionInternal rows newId userId normalizedEmail "complaint"
      (some eventId) domainId (some { autoSuppressed := true, extra := metaExtra })
    (p.1, .added p.2)
  else if eventType = "unsubscribed" then
    let p := addToSuppressionInternal rows newId userId normalizedEmail "unsubscribe"
      (some eventId) domainId (some { autoSuppressed := true, extra := metaExtra })
    (p.1, .added p.2)
  else if eventType = "bounced" then
    let bt := match bounceType with
      | some s => if s = "" then "hard_bounce" else s
      | none => "hard_bounce"
    if bt = "soft_bounce" then
      let p := handleSoftBounce rows newId now userId normalizedEmail
        (some eventId) domainId metaExtra
      (p.1, .softBounced p.2)
    else
      let p := addToSuppressionInternal rows newId userId normalizedEmail "hard_bounce"
        (some eventId) domainId (some { autoSuppressed := true, extra := metaExtra })
      (p.1, .added p.2)
  else (rows, .noSuppression)

/-! Template renderer.  The source substitutes `RegExp('\\{\\{\\s*' + key +
'\\s*\\}\\}', 'g')` with an HTML-escaped value via `String.replace`.  The
regular-expression fragment actually exercised by these patterns is
embedded: literal characters, the escapes `\{ \} \s` (with `\s*`), and the
`.` wildcard that an unescaped key can inject.  Any other metacharacter
reaching the pattern — e.g. the unbalanced `(` of an unescaped key, on
which the ECMAScript `RegExp` constructor throws — is modelled as a
construction failure.  Replacement-string `$`-directives
(ECMAScript `GetSubstitution`: `$$`, `$&`, `` $` ``, `$'`) are applied to
the escaped value; the compiled patterns never carry capture groups, so
`$n` and `$<...>` stay literal. -/

/-- Token of the compiled placeholder pattern. -/
inductive Tok where
  | lit (c : Char)
  | anyChar
  | ws
  | wsStar
  deriving Repr, DecidableEq

/-- Metacharacters outside the embedded fragment; their appearance makes
the model treat the pattern as failing to construct. -/
def regexMetaChars : List Char :=
  ['(', ')', '*', '+', '?', '[', ']', '\x7b', '\x7d', '|', '^', '$']

/-- Compile a pattern string into tokens; `none` models a `RegExp`
constructor failure (or an unsupported construct). -/
def compilePattern : List Char → Option (List Tok)
  | [] => some []
  | '\\' :: [] => none
  | '\\' :: 's' :: '*' :: rest => (compilePattern rest).map (fun ts => Tok.wsStar :: ts)
  | '\\' :: 's' :: rest => (compilePattern rest).map (fun ts => Tok.ws :: ts)
  | '\\' :: c :: rest =>
      if c.isAlphanum then none
      else (compilePattern rest).map (fun ts => Tok.lit c :: ts)
  | '.' :: rest => (compilePattern rest).map (fun ts => Tok.anyChar :: ts)
  | c :: rest =>
      if regexMetaChars.contains c then none
      else (compilePattern rest).map (fun ts => Tok.lit c :: ts)

/-- Dropping a prefix never lengthens a list. -/
theorem dropWhile_length_le (p : Char → Bool) (l : List Char) :
    (l.dropWhile p).length ≤ l.length := by
  induction l with
  | nil => simp [List.dropWhile]
  | cons x l ih =>
      by_cases h : p x
      · simpa [List.dropWhile, h] using Nat.le_succ_of_le ih
      · simp [List.dropWhile, h]

/-- Match a token list against the head of the input, returning the
remaining input.  `\s*` munches maximally (adequate for the compiled
placeholder patterns, whose token after `\s*` never matches whitespace);
`.` excludes line terminators as in ECMAScript. -/
def matchTokens : List Tok → List Char → Option (List Char)
  | [], l => some l
  | Tok.lit c :: ts, x :: l => if x = c then matchTokens ts l else none
  | Tok.lit _ :: _, [] => none
  | Tok.anyChar :: ts, x :: l =>
      if x = '\n' ∨ x = '\r' then none else matchTokens ts l
  | Tok.anyChar :: _, [] => none
  | Tok.ws :: ts, x :: l => if jsWsChar x then matchTokens ts l else none
  | Tok.ws :: _, [] => none
  | Tok.wsStar :: ts, l => matchTokens ts (l.dropWhile jsWsChar)

/-- A successful token match never lengthens the input. -/
theorem matchTokens_length_le (ts : List Tok) (l r : List Char)
    (h : matchTokens ts l = some r) : r.length ≤ l.length := by
  induction ts generalizing l r with
  | nil =>
      simp only [matchTokens, Option.some.injEq] at h
      simp [← h]
  | cons t ts ih =>
      cases t with
      | lit c =>
          cases l with
          | nil => simp [matchTokens] at h
          | cons x l =>
              simp only [matchTokens] at h
              split at h
              · exact Nat.le_succ_of_le (ih l r h)
              · exact absurd h (by simp)
      | anyChar =>
          cases l with
          | nil => simp [matchTokens] at h
          | cons x l =>
              simp only [matchTokens] at h
              split at h
              · exact absurd h (by simp)
              · exact Nat.le_succ_of_le (ih l r h)
      | ws =>
          cases l with
          | nil => simp [matchTokens] at h
          | cons x l =>
              simp only [matchTokens] at h
              split at h
              · exact Nat.le_succ_of_le (ih l r h)
              · exact absurd h (by simp)
      | wsStar =>
          simp only [matchTokens] at h
          exact Nat.le_trans (ih _ r h) (dropWhile_length_le _ _)

/-- Apostrophe character (code point 39). -/
def apostChar : Char := Char.ofNat 39

/-- Backtick character (code point 96). -/
def backtickChar : Char := Char.ofNat 96

/-- ECMAScript `GetSubstitution` on a string replacement: `$$` is a
literal `$`, `$&` the matched text, `` $` `` the part of the subject
before the match, `$'` the part after it.  The compiled placeholder
patterns never contain capture groups, so `$n` (no such group) and
`$<...>` (no named groups) are preserved literally, as is a lone
trailing `$`. -/
def getSubstitution (matched pre suf : List Char) : List Char → List Char
  | [] => []
  | c :: rest =>
      if c = '$' then
        match rest with
        | [] => ['$']
        | d :: rest2 =>
            if d = '$' then '$' :: getSubstitution matched pre suf rest2
            else if d = '&' then matched ++ getSubstitution matched pre suf rest2
            else if d = backtickChar then pre ++ getSubstitution matched pre suf rest2
            else if d = apostChar then suf ++ getSubstitution matched pre suf rest2
            else '$' :: getSubstitution matched pre suf (d :: rest2)
      else c :: getSubstitution matched pre suf rest

/-- Global regex replacement: scan left to right, splice the
`GetSubstitution` of the replacement at every match (`pre` threads the
part of the subject already scanned, so `` $` `` sees the subject prefix
and `$'` the remaining tail), continue after the consumed text.  (The
guarded `else` branch handles a zero-width match; it is unreachable for
the compiled placeholder patterns, which always consume their leading
`\{`.)  The fuel argument only bounds the recursion; a successful match
always consumes at least one character here, so one unit per input
character suffices and `replaceTokens` passes the input length. -/
def replaceTokensF (ts : List Tok) (repl : List Char) :
    Nat → List Char → List Char → List Char
  | _, _, [] => []
  | 0, _, l => l
  | fuel + 1, pre, c :: l =>
      match matchTokens ts (c :: l) with
      | some r =>
          let matched := (c :: l).take ((c :: l).length - r.length)
          if r.length < l.length + 1 then
            getSubstitution matched pre r repl ++
              replaceTokensF ts repl fuel (pre ++ matched) r
          else getSubstitution matched pre r repl ++ r
      | none => c :: replaceTokensF ts repl fuel (pre ++ [c]) l

/-- Global regex replacement over a whole input. -/
def replaceTokens (ts : List Tok) (repl : List Char) (l : List Char) : List Char :=
  replaceTokensF ts repl l.length [] l

/-- Replacement of every occurrence of one character, the embedding of
`String.replace(/c/g, repl)`. -/
def replaceChar (c : Char) (repl : List Char) : List Char → List Char
  | [] => []
  | x :: l => if x = c then repl ++ replaceChar c repl l else x :: replaceChar c repl l

/-- Embedding of the renderer's escaping chain `& < > " '` →
`&amp; &lt; &gt; &quot; &#039;`, applied in source order. -/
def escapeHtml (s : String) : String :=
  String.mk (replaceChar apostChar "&#039;".toList
    (replaceChar '"' "&quot;".toList
      (replaceChar '>' "&gt;".toList
        (replaceChar '<' "&lt;".toList
          (replaceChar '&' "&amp;".toList s.toList)))))

/-- Declared variable of a template (`emailTemplateVariable`). -/
structure TemplateVarDef where
  name : String
  defaultValue : Option String := none
  deriving Repr, DecidableEq

/-- Row of `emailTemplate` with its declared variables joined in
(the source field `variables` is spelled `varDefs` here because
`variables` is reserved in Lean). -/
structure TemplateRow where
  id : String
  userId : String
  slug : String
  subject : String
  htmlContent : String
  isActive : Bool
  varDefs : List TemplateVarDef := []
  deriving Repr, DecidableEq

/-- The pattern string `\{\{\s*KEY\s*\}\}` built around the raw,
unescaped key. -/
def buildPlaceholderPattern (k : String) : String :=
  "\\\x7b\\\x7b\\s*" ++ k ++ "\\s*\\\x7d\\\x7d"

/-- Result of a successful template render. -/
structure RenderedTemplate where
  subject : String
  html : String
  templateId : String
  deriving Repr, DecidableEq

/-- Caller-variable substitution pass of `renderTemplate`: for each
`(key, value)` in order, build the placeholder regex (which may throw)
and replace globally in subject and html with the escaped value. -/
def applyVarLoop : List (String × String) → String → String →
    Except String (String × String)
  | [], subj, html => .ok (subj, html)
  | (k, v) :: rest, subj, html =>
      match compilePattern (buildPlaceholderPattern k).toList with
      | none => .error ("Invalid regular expression: " ++ buildPlaceholderPattern k)
      | some ts =>
          let ev := (escapeHtml v).toList
          applyVarLoop rest (String.mk (replaceTokens ts ev subj.toList))
            (String.mk (replaceTokens ts ev html.toList))

/-- Default-value pass of `renderTemplate`: applied after the caller
variables, only for declared variables whose `defaultValue` is truthy. -/
def applyDefaultsLoop : List TemplateVarDef → String → String →
    Except String (String × String)
  | [], subj, html => .ok (subj, html)
  | vd :: rest, subj, html =>
      match vd.defaultValue with
      | some d =>
          if d = "" then applyDefaultsLoop rest subj html
          else
            match compilePattern (buildPlaceholderPattern vd.name).toList with
            | none =>
                .error ("Invalid regular expression: " ++ buildPlaceholderPattern vd.name)
            | some ts =>
                let ed := (escapeHtml d).toList
                applyDefaultsLoop rest (String.mk (replaceTokens ts ed subj.toList))
                  (String.mk (replaceTokens ts ed html.toList))
      | none => applyDefaultsLoop rest subj html

/-- Embedding of `renderTemplate` (events-route version): resolve the
active template by id first, then by slug; substitute caller variables,
then defaults.  `.error` models an exception escaping the handler. -/
def renderTemplate (templates : List TemplateRow) (templateIdOrSlug userId : String)
    (vars : List (String × String)) : Except String (Option RenderedTemplate) :=
  let byId := templates.find? (fun t =>
    decide (t.id = templateIdOrSlug) && decide (t.userId = userId) && t.isActive)
  let tmpl := match byId with
    | some t => some t
    | none => templates.find? (fun t =>
        decide (t.slug = templateIdOrSlug) && decide (t.userId = userId) && t.isActive)
  match tmpl with
  | none => .ok none
  | some t =>
      match applyVarLoop vars t.subject t.htmlContent with
      | .error e => .error e
      | .ok (s1, h1) =>
          match applyDefaultsLoop t.varDefs s1 h1 with
          | .error e => .error e
          | .ok (s2, h2) => .ok (some ⟨s2, h2, t.id⟩)

/-! HTML tracking rewriter.  The source extracts anchors with the global
case-insensitive regex `<a\s+([^>]*?)href=["']([^"']+)["']([^>]*)>`,
rewrites non-excluded hrefs to the click endpoint, and injects a 1×1
pixel before the first case-insensitive `</body>`. -/

/-- Quote characters of the regex class `["']`. -/
def isQuoteChar (c : Char) : Bool := c = '"' || c = apostChar

/-- Case-insensitive prefix test (the needle is given lower-case). -/
def startsWithCI : List Char → List Char → Bool
  | [], _ => true
  | _ :: _, [] => false
  | p :: ps, x :: xs => (x.toLower = p) && startsWithCI ps xs

/-- Parse of the `([^>]*?)href=["']([^"']+)["']` portion of the anchor
regex: the lazy scan from the current position to the first `href=`
(case-insensitive) that is followed by a quoted non-empty URL, failing if
a `>` is reached first.  `raw5` keeps the original-case `href=` text so
excluded anchors can be reproduced verbatim. -/
structure HrefScan where
  before : List Char
  raw5 : List Char
  q1 : Char
  url : List Char
  q2 : Char
  rest : List Char
  deriving Repr, DecidableEq

/-- The lazy `href=` scanner (see `HrefScan`).  A position where `href=`
matches but the quoted-URL part does not is skipped, as regex
backtracking does. -/
def scanHref : List Char → Option HrefScan
  | [] => none
  | c :: l =>
      if c = '>' then none
      else if startsWithCI "href=".toList (c :: l) then
        match (c :: l).drop 5 with
        | q :: r2 =>
            if isQuoteChar q then
              match r2.dropWhile (fun x => !isQuoteChar x) with
              | q2 :: r4 =>
                  if (r2.takeWhile (fun x => !isQuoteChar x)).isEmpty then
                    (scanHref l).map (fun h => { h with before := c :: h.before })
                  else
                    some ⟨[], (c :: l).take 5, q,
                      r2.takeWhile (fun x => !isQuoteChar x), q2, r4⟩
              | [] => (scanHref l).map (fun h => { h with before := c :: h.before })
            else (scanHref l).map (fun h => { h with before := c :: h.before })
        | [] => (scanHref l).map (fun h => { h with before := c :: h.before })
      else (scanHref l).map (fun h => { h with before := c :: h.before })

/-- A successful `href=` scan consumes at least one input character. -/
theorem scanHref_rest_lt : ∀ (l : List Char) (h : HrefScan),
    scanHref l = some h → h.rest.length < l.length := by
  intro l
  induction l with
  | nil => intro h hs; simp [scanHref] at hs
  | cons c l ih =>
      intro h hs
      simp only [scanHref] at hs
      split at hs
      · exact absurd hs (by simp)
      · split at hs
        · split at hs
          · rename_i q r2 hdrop
            split at hs
            · split at hs
              · rename_i q2 r4 hdrop2
                split at hs
                · simp only [Option.map_eq_some'] at hs
                  obtain ⟨h', hh', hrw⟩ := hs
                  have := ih h' hh'
                  simp [← hrw, this]
                  omega
                · simp only [Option.some.injEq] at hs
                  have h5 : ((c :: l).drop 5).length = (c :: l).length - 5 :=
                    List.length_drop 5 (c :: l)
                  rw [hdrop] at h5
                  have h6 : (q2 :: r4).length ≤ r2.length := by
                    rw [← hdrop2]
                    exact dropWhile_length_le _ _
                  subst hs
                  simp only [List.length_cons] at h5 h6 ⊢
                  omega
              · simp only [Option.map_eq_some'] at hs
                obtain ⟨h', hh', hrw⟩ := hs
                have := ih h' hh'
                simp [← hrw, this]
                omega
            · simp only [Option.map_eq_some'] at hs
              obtain ⟨h', hh', hrw⟩ := hs
              have := ih h' hh'
              simp [← hrw, this]
              omega
          · simp only [Option.map_eq_some'] at hs
            obtain ⟨h', hh', hrw⟩ := hs
            have := ih h' hh'
            simp [← hrw, this]
            omega
        · simp only [Option.map_eq_some'] at hs
          obtain ⟨h', hh', hrw⟩ := hs
          have := ih h' hh'
          simp [← hrw, this]
          omega

/-- One match of the anchor regex, split into the capture groups the
replacement callback receives, plus the raw pieces needed to reproduce
the matched text verbatim. -/
structure AnchorMatch where
  aChar : Char
  wsRun : List Char
  before : List Char
  raw5 : List Char
  q1 : Char
  url : List Char
  q2 : Char
  after : List Char
  deriving Repr, DecidableEq

/-- The text of the original matched anchor tag. -/
def AnchorMatch.raw (a : AnchorMatch) : List Char :=
  '<' :: a.aChar :: (a.wsRun ++ a.before ++ a.raw5 ++ [a.q1] ++ a.url ++ [a.q2]
    ++ a.after ++ ['>'])

/-- Try the anchor regex at the head of the input; on success return the
match and the input remaining after the consumed `>`. -/
def tryMatchAnchor : List Char → Option (AnchorMatch × List Char)
  | '<' :: a :: l =>
      if a.toLower = 'a' then
        if (l.takeWhile jsWsChar).isEmpty then none
        else
          match scanHref (l.dropWhile jsWsChar) with
          | none => none
          | some h =>
              match h.rest.dropWhile (fun x => x ≠ '>') with
              | '>' :: rest2 =>
                  some (⟨a, l.takeWhile jsWsChar, h.before, h.raw5, h.q1, h.url, h.q2,
                         h.rest.takeWhile (fun x => x ≠ '>')⟩, rest2)
              | _ => none
      else none
  | _ => none

/-- A successful anchor match consumes at least one input character. -/
theorem tryMatchAnchor_rest_lt (l : List Char) (a : AnchorMatch) (r : List Char)
    (hm : tryMatchAnchor l = some (a, r)) : r.length < l.length := by
  rw [tryMatchAnchor.eq_def] at hm
  split at hm
  · rename_i x l'
    split at hm
    · split at hm
      · exact absurd hm (by simp)
      · split at hm
        · exact absurd hm (by simp)
        · rename_i h hscan
          split at hm
          · rename_i rest2 hdrop
            simp only [Option.some.injEq, Prod.mk.injEq] at hm
            obtain ⟨_, hr⟩ := hm
            have hlt := scanHref_rest_lt _ h hscan
            have hdl : (l'.dropWhile jsWsChar).length ≤ l'.length :=
              dropWhile_length_le _ _
            have h6 : ('>' :: rest2).length ≤ h.rest.length := by
              rw [← hdrop]
              exact dropWhile_length_le _ _
            subst hr
            simp only [List.length_cons] at h6 ⊢
            omega
          · exact absurd hm (by simp)
    · exact absurd hm (by simp)
  · exact absurd hm (by simp)

/-- Segment of the global anchor-regex decomposition of an HTML string:
either one unmatched character or one anchor match. -/
inductive HtmlSeg where
  | plain (cs : List Char)
  | anchor (a : AnchorMatch)
  deriving Repr, DecidableEq

/-- Global scan of the anchor regex: at each position try a match; on
success continue after it (matches never overlap), otherwise step one
character, as the regex engine's `lastIndex` does.  The fuel only bounds
the recursion; a match consumes at least one character, so one unit per
input character suffices and `findAnchors` passes the input length. -/
def findAnchorsF : Nat → List Char → List HtmlSeg
  | _, [] => []
  | 0, l => [HtmlSeg.plain l]
  | fuel + 1, c :: l =>
      match tryMatchAnchor (c :: l) with
      | some (a, rest) => HtmlSeg.anchor a :: findAnchorsF fuel rest
      | none => HtmlSeg.plain [c] :: findAnchorsF fuel l

/-- Global scan of the anchor regex over a whole input. -/
def findAnchors (l : List Char) : List HtmlSeg := findAnchorsF l.length l

/-- The anchor matches of an HTML string, in order. -/
def anchorsOf (html : String) : List AnchorMatch :=
  (findAnchors html.toList).filterMap (fun s =>
    match s with
    | HtmlSeg.anchor a => some a
    | HtmlSeg.plain _ => none)

/-- Substrings whose presence in a lower-cased URL excludes it from
tracking. -/
def EXCLUDED_DOMAINS : List String := ["unsubscribe", "optout", "mailto:", "tel:", "#"]

/-- Substring containment on character lists. -/
def containsSub (needle : List Char) : List Char → Bool
  | [] => needle.isEmpty
  | x :: rest => needle.isPrefixOf (x :: rest) || containsSub needle rest

/-- Embedding of `shouldExcludeUrl`: the lower-cased URL contains one of
the excluded substrings. -/
def shouldExcludeUrl (url : String) : Bool :=
  let lowerUrl := jsToLower url
  EXCLUDED_DOMAINS.any (fun d => containsSub d.toList lowerUrl.toList)

/-- Embedding of `extractLinksFromHtml`, projected onto the original
URLs (the source also records match positions, which nothing reads). -/
def extractLinksFromHtml (html : String) : List String :=
  (anchorsOf html).filterMap (fun a =>
    if shouldExcludeUrl (String.mk a.url) then none else some (String.mk a.url))

/-- Link-tracking record for one distinct URL. -/
structure LinkTrackingData where
  trackingId : String
  originalUrl : String
  trackingUrl : String
  deriving Repr, DecidableEq

/-- Click-tracking URL `${baseUrl}/t/c/${trackingId}`. -/
def buildClickTrackingUrl (baseUrl trackingId : String) : String :=
  baseUrl ++ "/t/c/" ++ trackingId

/-- Open-tracking URL `${baseUrl}/t/o/${trackingId}`. -/
def buildOpenTrackingUrl (baseUrl trackingId : String) : String :=
  baseUrl ++ "/t/o/" ++ trackingId

/-- Allocation loop of `generateTrackingData`: walk the extracted URLs,
allocating one tracking id per first occurrence (`processedUrls` in the
source is exactly the set of URLs already in `links`).  Ids are drawn in
creation order: the open id consumed index 0, the i-th distinct link gets
index i + 1. -/
def allocLinks (idOf : Nat → String) (baseUrl : String) :
    List String → List LinkTrackingData → List LinkTrackingData
  | [], links => links
  | u :: rest, links =>
      if (links.map (fun l => l.originalUrl)).contains u then
        allocLinks idOf baseUrl rest links
      else
        let tid := idOf (links.length + 1)
        allocLinks idOf baseUrl rest
          (links ++ [⟨tid, u, buildClickTrackingUrl baseUrl tid⟩])

/-- Output of `generateTrackingData` (the source's `linkMap` is always
the `(originalUrl, trackingUrl)` projection of `links`, recovered here
by `linkMapOf`). -/
structure TrackingData where
  openTrackingId : String
  openTrackingUrl : String
  links : List LinkTrackingData
  deriving Repr, DecidableEq

/-- Embedding of `generateTrackingData`. -/
def generateTrackingData (idOf : Nat → String) (baseUrl html : String) : TrackingData :=
  let openTrackingId := idOf 0
  ⟨openTrackingId, buildOpenTrackingUrl baseUrl openTrackingId,
   allocLinks idOf baseUrl (extractLinksFromHtml html) []⟩

/-- The `linkMap` of a link list. -/
def linkMapOf (links : List LinkTrackingData) : List (String × String) :=
  links.map (fun l => (l.originalUrl, l.trackingUrl))

/-- JavaScript `Map.get` on an association list (keys are unique by
construction). -/
def lookupAssoc (m : List (String × String)) (k : String) : Option String :=
  (m.find? (fun p => decide (p.1 = k))).map (fun p => p.2)

/-- The replacement text `` `<a ${before}href="${trackingUrl}"${after}>` ``
produced by the rewrite callback. -/
def rewriteAnchor (a : AnchorMatch) (trackingUrl : String) : List Char :=
  ('<' :: 'a' :: ' ' :: a.before) ++ "href=\"".toList ++ trackingUrl.toList
    ++ ['"'] ++ a.after ++ ['>']

/-- Rendering of one decomposition segment under the replacement
callback of `wrapLinksForTracking`: excluded or unmapped anchors are kept
verbatim, mapped anchors are rewritten. -/
def renderSeg (linkMap : List (String × String)) : HtmlSeg → List Char
  | HtmlSeg.plain cs => cs
  | HtmlSeg.anchor a =>
      if shouldExcludeUrl (String.mk a.url) then a.raw
      else
        match lookupAssoc linkMap (String.mk a.url) with
        | some turl => rewriteAnchor a turl
        | none => a.raw

/-- Embedding of `wrapLinksForTracking`: `String.replace(LINK_REGEX, cb)`
is the segment decomposition re-joined with matches passed through the
callback. -/
def wrapLinksForTracking (html : String) (linkMap : List (String × String)) : String :=
  String.mk (((findAnchors html.toList).map (renderSeg linkMap)).flatten)

/-- The 1×1 tracking-pixel `<img>` markup for a pixel URL. -/
def trackingPixelHtml (pixelUrl : String) : String :=
  "<img src=\"" ++ pixelUrl
    ++ "\" width=\"1\" height=\"1\" alt=\"\" style=\"display:none;width:1px;height:1px;border:0;\" />"

/-- First index at which the (lower-case) needle occurs
case-insensitively. -/
def findCISub (needle : List Char) : List Char → Option Nat
  | [] => if needle.isEmpty then some 0 else none
  | x :: rest =>
      if startsWithCI needle (x :: rest) then some 0
      else (findCISub needle rest).map (fun i => i + 1)

/-- Embedding of `injectOpenTracker`: splice the pixel in front of the
first case-insensitive `</body>` (the `/i` replace also normalizes that
closing tag to lower case), else append the pixel at the end. -/
def injectOpenTracker (html pixelUrl : String) : String :=
  let pixel := trackingPixelHtml pixelUrl
  match findCISub "</body>".toList html.toList with
  | some i =>
      String.mk (html.toList.take i ++ (pixel ++ "</body>").toList
        ++ html.toList.drop (i + 7))
  | none => html ++ pixel

/-- Output of `applyEmailTracking`. -/
structure AppliedTracking where
  modifiedHtml : String
  openTrackingId : String
  links : List LinkTrackingData
  deriving Repr, DecidableEq

/-- Embedding of `applyEmailTracking`: generate tracking data, wrap the
links, then inject the open pixel. -/
def applyEmailTracking (idOf : Nat → String) (baseUrl html : String) : AppliedTracking :=
  let td := generateTrackingData idOf baseUrl html
  let modifiedHtml := wrapLinksForTracking html (linkMapOf td.links)
  ⟨injectOpenTracker modifiedHtml td.openTrackingUrl, td.openTrackingId, td.links⟩

/-! Accept-and-enqueue route, event rows, billing, worker, and the
open-tracking ingress endpoint. -/

/-- Structured model of the JSON metadata payloads written to
`emailEvent.metadata`. -/
inductive EventMeta where
  | queuedMeta (fromName : Option String) (fromAddress : String)
      (replyTo : Option String) (templateId : Option String) (jobId : String)
  | openedMeta (trackingId : String) (openCount : Int)
  | clickedMeta (trackingId : String) (url : String) (clickCount : Int)
  | sentMeta (smtpResponse : String)
  | failedMeta (error : String) (attempt : Nat)
  | externalMeta (raw : List (String × String))
  deriving Repr, DecidableEq

/-- Row of `emailEvent` (the fields the core reads or writes). -/
structure EmailEvent where
  id : String
  userId : String
  messageId : String
  eventType : String
  recipientEmail : String
  sendingDomain : Option String := none
  subject : Option String := none
  ipAddress : Option String := none
  userAgent : Option String := none
  metadata : Option EventMeta := none
  deriving Repr, DecidableEq

/-- Parsed FROM address. -/
structure ParsedAddr where
  name : Option String := none
  address : String
  deriving Repr, DecidableEq

/-- Characters allowed by the `[^\s@]` classes of `EMAIL_REGEX`. -/
def noWsNoAt (l : List Char) : Bool := l.all (fun c => !jsWsChar c && c ≠ '@')

/-- Embedding of `EMAIL_REGEX = /^[^\s@]+@[^\s@]+\.[^\s@]+$/`: exactly one
`@`, a non-empty whitespace-free local part, and a domain part containing
a `.` with at least one character on each side. -/
def emailRegexTest (s : String) : Bool :=
  let l := s.toList
  let localPart := l.takeWhile (fun c => c ≠ '@')
  match l.dropWhile (fun c => c ≠ '@') with
  | '@' :: domainPart =>
      !localPart.isEmpty && noWsNoAt localPart &&
      !domainPart.isEmpty && noWsNoAt domainPart &&
      ((domainPart.drop 1).dropLast).contains '.'
  | _ => false

/-- End-of-name check for `^(.+?)\s*<([^>]+)>$`: optional whitespace, a
`<`, a non-empty `>`-free inner part, and a final `>` that ends the
string.  Returns the inner capture. -/
def postNameCheck (l : List Char) : Option (List Char) :=
  match l.dropWhile jsWsChar with
  | '<' :: r =>
      match r.dropWhile (fun c => c ≠ '>') with
      | ['>'] =>
          if (r.takeWhile (fun c => c ≠ '>')).isEmpty then none
          else some (r.takeWhile (fun c => c ≠ '>'))
      | _ => none
  | _ => none

/-- Lazy scan of `^(.+?)\s*<([^>]+)>$`: find the shortest non-empty name
prefix (free of line terminators, as the dot is) whose remainder passes
`postNameCheck`; returns the name and the inner `<...>` capture. -/
def nameAddrScan (nameRev : List Char) : List Char → Option (List Char × List Char)
  | [] => none
  | c :: rest =>
      match (if nameRev.isEmpty then none else postNameCheck (c :: rest)) with
      | some inner => some (nameRev.reverse, inner)
      | none =>
          if c = '\n' ∨ c = '\r' then none
          else nameAddrScan (c :: nameRev) rest

/-- Embedding of `name.replace(/^["']|["']$/g, '')`: strip one leading
and one trailing quote character. -/
def stripOuterQuotes (s : String) : String :=
  let l := s.toList
  let l1 := match l with
    | c :: rest => if c = '"' || c = apostChar then rest else l
    | [] => []
  let l2 := match l1.getLast? with
    | some c => if c = '"' || c = apostChar then l1.dropLast else l1
    | none => l1
  String.mk l2

/-- Embedding of `parseEmailAddress`: accept `Name <local@host>` (outer
quotes stripped from the trimmed name) or a plain address; the address
must pass `EMAIL_REGEX`. -/
def parseEmailAddress (email : String) : Option ParsedAddr :=
  let trimmed := jsTrim email
  match nameAddrScan [] trimmed.toList with
  | some (nameRaw, inner) =>
      let nm := stripOuterQuotes (jsTrim (String.mk nameRaw))
      let address := jsTrim (String.mk inner)
      if emailRegexTest address then some ⟨some nm, address⟩ else none
  | none =>
      if emailRegexTest trimmed then some ⟨none, trimmed⟩ else none

/-- JavaScript `String.split` on a single separator character. -/
def splitOnChar (sep : Char) : List Char → List (List Char)
  | [] => [[]]
  | c :: rest =>
      let r := splitOnChar sep rest
      if c = sep then [] :: r
      else
        match r with
        | h :: t => (c :: h) :: t
        | [] => [[c]]

/-- Embedding of `extractDomain`: the lower-cased right-hand side of the
parsed address, when the `@`-split has exactly two parts. -/
def extractDomain (email : String) : Option String :=
  match parseEmailAddress email with
  | none => none
  | some p =>
      match splitOnChar '@' p.address.toList with
      | [_, domainPart] => some (jsToLower (String.mk domainPart))
      | _ => none

/-- Row of `userBilling` (quota columns; both are nullable in the
schema). -/
structure BillingRow where
  id : String
  userId : String
  emailLimit : Option Int := none
  emailUsed : Option Int := none
  deriving Repr, DecidableEq

/-- The authenticated context attached by the middleware. -/
structure AuthCtx where
  userId : String
  domainId : String
  domainName : String
  apiKeyId : String
  billing : Option BillingRow := none
  deriving Repr, DecidableEq

/-- The `config.tracking` block. -/
structure TrackingConfig where
  baseUrl : String
  enableOpenTracking : Bool
  enableClickTracking : Bool
  deriving Repr, DecidableEq

/-- The `to` field: `string | string[]`. -/
inductive ToField where
  | single (s : String)
  | many (l : List String)
  deriving Repr, DecidableEq

/-- Embedding of `Array.isArray(to) ? to : [to]`. -/
def ToField.recipients : ToField → List String
  | .single s => [s]
  | .many l => l

/-- `POST /send` request body after schema validation (`vars` is the
object form of `variables`; the form-data JSON-string variant normalizes
to the same map and is not separately modelled). -/
structure SendBody where
  fromAddr : String
  «to» : ToField
  subject : Option String := none
  html : Option String := none
  text : Option String := none
  templateId : Option String := none
  vars : List (String × String) := []
  headers : List (String × String) := []
  replyTo : Option String := none
  disableTracking : Option Bool := none
  deriving Repr, DecidableEq

/-- JavaScript truthiness of an optional string. -/
def strOptTruthy (o : Option String) : Bool :=
  match o with
  | some s => decide (s ≠ "")
  | none => false

/-- Row of `emailTrackingOpen` (`openCount` defaults to 0 at insert and
is nullable in the schema). -/
structure OpenRow where
  id : String
  userId : String
  messageId : String
  recipientEmail : String
  sendingDomain : Option String := none
  openedAt : Option Nat := none
  openCount : Option Int := some 0
  deriving Repr, DecidableEq

/-- Row of `emailTrackingLink`. -/
structure LinkRow where
  id : String
  userId : String
  messageId : String
  recipientEmail : String
  sendingDomain : Option String := none
  originalUrl : String
  clickedAt : Option Nat := none
  clickCount : Option Int := some 0
  deriving Repr, DecidableEq

/-- The queued job payload (`EmailJobData`; the source field `from` is
spelled `fromAddr` because `from` is reserved in Lean). -/
structure EmailJobData where
  jobId : String
  userId : String
  domainId : String
  domainName : String
  apiKeyId : String
  messageId : String
  fromAddr : ParsedAddr
  «to» : List String
  subject : String
  html : Option String := none
  text : Option String := none
  replyTo : Option String := none
  headers : List (String × String) := []
  templateId : Option String := none
  createdAt : String := ""
  deriving Repr, DecidableEq

/-- The 200 response body of an accepted send. -/
structure SendResponse where
  jobId : String
  messageId : String
  recipients : Nat
  status : String
  deriving Repr, DecidableEq

/-- Everything an accepted send persists or returns: inserted event and
tracking rows, the billing increment (billing row id × count), the
enqueued job, and the response. -/
inductive SendOutcome where
  | err (status : Nat) (error message : String)
  | ok (events : List EmailEvent) (opens : List OpenRow) (links : List LinkRow)
      (billingAdd : Option (String × Nat)) (job : EmailJobData) (resp : SendResponse)
  deriving Repr, DecidableEq

/-- Per-recipient insert loop of the send route: one `queued` event per
recipient; with tracking, one open row per recipient with id
`${openTrackingId}_${nanoid(8)}`, and the link rows only while iterating
the recipient at index 0 (`indexOf === 0`).  `ctr` threads the nanoid
counter. -/
def sendInsertLoop (auth : AuthCtx) (cfg : TrackingConfig) (gen : Nat → String)
    (messageId emailSubject : String) (fromParsed : ParsedAddr)
    (replyTo templateId : Option String) (jobId : String)
    (tracking : Option AppliedTracking) (firstRecipient : Option String) :
    List String → Nat → List EmailEvent × List OpenRow × List LinkRow
  | [], _ => ([], [], [])
  | addr :: rest, ctr =>
      let ev : EmailEvent :=
        { id := gen ctr, userId := auth.userId, messageId := messageId,
          eventType := "queued", recipientEmail := addr,
          sendingDomain := some auth.domainName, subject := some emailSubject,
          metadata := some (.queuedMeta fromParsed.name fromParsed.address
            replyTo templateId jobId) }
      match tracking with
      | some td =>
          let opensHere : List OpenRow :=
            if cfg.enableOpenTracking then
              [{ id := td.openTrackingId ++ "_" ++ gen (ctr + 1),
                 userId := auth.userId, messageId := messageId,
                 recipientEmail := addr, sendingDomain := some auth.domainName }]
            else []
          let ctr2 := if cfg.enableOpenTracking then ctr + 2 else ctr + 1
          let linksHere : List LinkRow :=
            if cfg.enableClickTracking && decide (firstRecipient = some addr) then
              td.links.map (fun lk =>
                { id := lk.trackingId, userId := auth.userId, messageId := messageId,
                  recipientEmail := addr, sendingDomain := some auth.domainName,
                  originalUrl := lk.originalUrl })
            else []
          let next := sendInsertLoop auth cfg gen messageId emailSubject fromParsed
            replyTo templateId jobId tracking firstRecipient rest ctr2
          (ev :: next.1, opensHere ++ next.2.1, linksHere ++ next.2.2)
      | none =>
          let next := sendInsertLoop auth cfg gen messageId emailSubject fromParsed
            replyTo templateId jobId tracking firstRecipient rest (ctr + 1)
          (ev :: next.1, next.2.1, next.2.2)

/-- Tail of the send route once subject/html/text are resolved: content
validation, id generation, tracking application, row inserts, quota
increment, job payload, 200 response. -/
def sendRouteFinish (cfg : TrackingConfig) (auth : AuthCtx) (body : SendBody)
    (gen : Nat → String) (nowIso : String) (fromParsed : ParsedAddr)
    (recipients : List String) (emailSubject emailHtml emailText : Option String) :
    SendOutcome :=
  if !strOptTruthy emailSubject then
    .err 400 "Bad Request" "Subject is required"
  else if !strOptTruthy emailHtml && !strOptTruthy emailText then
    .err 400 "Bad Request" "Either html or text content is required"
  else
    let jobId := gen 0
    let messageId := "<" ++ gen 1 ++ "@" ++ auth.domainName ++ ">"
    let shouldTrack :=
      (match body.disableTracking with | some true => false | _ => true)
      && strOptTruthy emailHtml
      && (cfg.enableOpenTracking || cfg.enableClickTracking)
    let tracking : Option AppliedTracking :=
      if shouldTrack then
        emailHtml.map (fun h => applyEmailTracking (fun n => gen (2 + n)) cfg.baseUrl h)
      else none
    let emailHtml2 := match tracking with
      | some td => some td.modifiedHtml
      | none => emailHtml
    let ctrStart := match tracking with
      | some td => 3 + td.links.length
      | none => 2
    let subj := emailSubject.getD ""
    let rows := sendInsertLoop auth cfg gen messageId subj fromParsed
      body.replyTo body.templateId jobId tracking recipients.head? recipients ctrStart
    let job : EmailJobData :=
      { jobId := jobId, userId := auth.userId, domainId := auth.domainId,
        domainName := auth.domainName, apiKeyId := auth.apiKeyId,
        messageId := messageId, fromAddr := fromParsed, «to» := recipients,
        subject := subj, html := emailHtml2, text := emailText,
        replyTo := body.replyTo, headers := body.headers,
        templateId := body.templateId, createdAt := nowIso }
    .ok rows.1 rows.2.1 rows.2.2
      (auth.billing.map (fun b => (b.id, recipients.length)))
      job ⟨jobId, messageId, recipients.length, "queued"⟩

/-- Embedding of the `POST /send` handler (events-route version): FROM
parsing and domain authorization, quota preflight, template resolution
(a renderer exception escapes as a 500), then `sendRouteFinish`.  The
suppression table is never consulted on this path. -/
def sendRoute (cfg : TrackingConfig) (templates : List TemplateRow) (auth : AuthCtx)
    (body : SendBody) (gen : Nat → String) (nowIso : String) : SendOutcome :=
  match parseEmailAddress body.fromAddr with
  | none => .err 400 "Bad Request" "Invalid FROM email address format"
  | some fromParsed =>
      let fromDomainFail := match extractDomain body.fromAddr with
        | none => true
        | some d => d = "" || decide (d ≠ jsToLower auth.domainName)
      if fromDomainFail then
        .err 403 "Forbidden"
          ("FROM domain must match your API key domain (" ++ auth.domainName ++ ")")
      else
        let recipients := body.«to».recipients
        let quotaFail := match auth.billing with
          | some b =>
              decide (b.emailUsed.getD 0 + (recipients.length : Int) > b.emailLimit.getD 0)
          | none => false
        if quotaFail then
          .err 429 "Rate Limit Exceeded" "Monthly email limit reached"
        else
          match body.templateId with
          | some tid =>
              match renderTemplate templates tid auth.userId body.vars with
              | .error _ => .err 500 "Internal Server Error" "Failed to process request"
              | .ok none => .err 404 "Not Found" "Template not found or access denied"
              | .ok (some r) =>
                  sendRouteFinish cfg auth body gen nowIso fromParsed recipients
                    (some r.subject) (some r.html)
                    (match body.text with
                     | some t => if t = "" then none else some t
                     | none => none)
          | none =>
              sendRouteFinish cfg auth body gen nowIso fromParsed recipients
                body.subject body.html body.text

/-- SQL `UPDATE user_billing SET email_used = email_used + N WHERE id = ?`
(`NULL + N` stays `NULL`). -/
def applyQuotaAdd (bs : List BillingRow) (billingId : String) (n : Nat) :
    List BillingRow :=
  bs.map (fun b => if b.id = billingId then
    { b with emailUsed := b.emailUsed.map (fun x => x + (n : Int)) } else b)

/-- Postgres `GREATEST(0, email_used - N)`: `GREATEST` ignores a `NULL`
argument, so a `NULL` count becomes `0`. -/
def quotaRollbackValue (emailUsed : Option Int) (n : Nat) : Option Int :=
  match emailUsed with
  | some x => some (max 0 (x - (n : Int)))
  | none => some 0

/-- `job.opts.attempts || 3` (JS truthiness: an explicit `0` is falsy and
also falls back to 3; the queue enqueues with `attempts: 3`). -/
def jobMaxAttempts (optsAttempts : Option Nat) : Nat :=
  match optsAttempts with
  | some n => if n = 0 then 3 else n
  | none => 3

/-- Relay outcome seen by the worker. -/
inductive SmtpOutcome where
  | accepted (response : String)
  | failed (error : String)
  deriving Repr, DecidableEq

/-- What one worker run did. -/
structure WorkerResult where
  success : Bool
  rolledBack : Bool
  deriving Repr, DecidableEq

/-- Embedding of `processEmailJob`: on relay accept flip every event row
of the message to `sent`; on relay error flip them to `failed` and, on
the terminal attempt (`attemptsMade + 1 >= (job.opts.attempts || 3)`),
clamp-decrement the first billing row of the job's user (the job then
rethrows so the queue retries). -/
def processEmailJob (events : List EmailEvent) (bs : List BillingRow)
    (job : EmailJobData) (outcome : SmtpOutcome) (attemptsMade : Nat)
    (optsAttempts : Option Nat) : List EmailEvent × List BillingRow × WorkerResult :=
  match outcome with
  | .accepted resp =>
      (events.map (fun e => if e.messageId = job.messageId then
         { e with eventType := "sent", metadata := some (.sentMeta resp) } else e),
       bs, ⟨true, false⟩)
  | .failed errMsg =>
      let events2 := events.map (fun e => if e.messageId = job.messageId then
        { e with eventType := "failed",
                 metadata := some (.failedMeta errMsg (attemptsMade + 1)) } else e)
      if attemptsMade + 1 ≥ jobMaxAttempts optsAttempts then
        match bs.find? (fun b => decide (b.userId = job.userId)) with
        | some billing =>
            (events2,
             bs.map (fun b => if b.id = billing.id then
               { b with emailUsed := quotaRollbackValue b.emailUsed job.«to».length }
              else b),
             ⟨false, true⟩)
        | none => (events2, bs, ⟨false, false⟩)
      else (events2, bs, ⟨false, false⟩)


/-- A concrete billing row for exercising the quota lifecycle. -/
def billW : BillingRow :=
  { id := "b1", userId := "u1", emailLimit := some 100, emailUsed := some 5 }

/-- A concrete queued job for exercising the quota lifecycle. -/
def jobW : EmailJobData :=
  { jobId := "j1", userId := "u1", domainId := "d1", domainName := "x.com",
    apiKeyId := "k1", messageId := "m1",
    fromAddr := { address := "a@x.com" }, «to» := ["r1@y.com", "r2@y.com"],
    subject := "s" }

/-- A tracking-disabled config for exercising the send route. -/
def cfgBob : TrackingConfig :=
  { baseUrl := "http://t", enableOpenTracking := false, enableClickTracking := false }

/-- An authenticated context (no billing row) for exercising the send
route. -/
def authBob : AuthCtx :=
  { userId := "u1", domainId := "d1", domainName := "x.com", apiKeyId := "k1" }

/-- A plain-text send to a single recipient. -/
def bodyBob : SendBody :=
  { fromAddr := "alice@x.com", «to» := .single "bob@x.com",
    subject := some "Hi", text := some "hello" }

/-- A deterministic id generator. -/
def genBob : Nat → String := fun n => "g" ++ toString n

/-- A suppression table holding a `hard_bounce` row for the recipient of
`bodyBob`. -/
def suppBob : List SuppressionRow :=
  [{ id := "s1", userId := "u1", email := "bob@x.com", reason := "hard_bounce" }]

/-- The queued event the send route inserts for `bodyBob`. -/
def evBob : EmailEvent :=
  { id := "g2", userId := "u1", messageId := "<g1@x.com>",
    eventType := "queued", recipientEmail := "bob@x.com",
    sendingDomain := some "x.com", subject := some "Hi",
    metadata := some (.queuedMeta none "alice@x.com" none none "g0") }

/-- The job the send route enqueues for `bodyBob`. -/
def jobBob : EmailJobData :=
  { jobId := "g0", userId := "u1", domainId := "d1", domainName := "x.com",
    apiKeyId := "k1", messageId := "<g1@x.com>",
    fromAddr := { name := none, address := "alice@x.com" },
    «to» := ["bob@x.com"], subject := "Hi", text := some "hello",
    createdAt := "now" }

/-- The 200 response the send route returns for `bodyBob`. -/
def respBob : SendResponse :=
  { jobId := "g0", messageId := "<g1@x.com>", recipients := 1, status := "queued" }

/-- A config with both tracking kinds enabled. -/
def cfgTrk : TrackingConfig :=
  { baseUrl := "http://t", enableOpenTracking := true, enableClickTracking := true }

/-- An HTML send with one trackable link. -/
def bodyTrk : SendBody :=
  { fromAddr := "alice@x.com", «to» := .single "bob@x.com",
    subject := some "Hi", html := some "<p><a href=\"https://z\">L</a></p>" }

/-- The queued event of the tracked send. -/
def evTrk : EmailEvent :=
  { id := "g4", userId := "u1", messageId := "<g1@x.com>",
    eventType := "queued", recipientEmail := "bob@x.com",
    sendingDomain := some "x.com", subject := some "Hi",
    metadata := some (.queuedMeta none "alice@x.com" none none "g0") }

/-- The open-tracking row the tracked send stores (note the id suffix). -/
def openTrk : OpenRow :=
  { id := "g2_g5", userId := "u1", messageId := "<g1@x.com>",
    recipientEmail := "bob@x.com", sendingDomain := some "x.com" }

/-- The click-tracking row of the tracked send. -/
def linkTrk : LinkRow :=
  { id := "g3", userId := "u1", messageId := "<g1@x.com>",
    recipientEmail := "bob@x.com", sendingDomain := some "x.com",
    originalUrl := "https://z" }

/-- The job of the tracked send; its html embeds the pixel URL
`http://t/t/o/g2`, whose id is the bare `openTrackingId`. -/
def jobTrk : EmailJobData :=
  { jobId := "g0", userId := "u1", domainId := "d1", domainName := "x.com",
    apiKeyId := "k1", messageId := "<g1@x.com>",
    fromAddr := { name := none, address := "alice@x.com" },
    «to» := ["bob@x.com"], subject := "Hi",
    html := some ("<p><a href=\"http://t/t/c/g3\">L</a></p><img " ++
      "src=\"http://t/t/o/g2\" width=\"1\" height=\"1\" alt=\"\" " ++
      "style=\"display:none;width:1px;height:1px;border:0;\" />"),
    createdAt := "now" }

/-- The 200 response of the tracked send. -/
def respTrk : SendResponse :=
  { jobId := "g0", messageId := "<g1@x.com>", recipients := 1, status := "queued" }

/-- An active template whose html holds the placeholder `[[axb]]` (with
curly braces in place of the square brackets). -/
def tmplC10 : TemplateRow :=
  { id := "t1", userId := "u1", slug := "welcome", subject := "Sub",
    htmlContent := "<h1>\x7b\x7baxb\x7d\x7d</h1>", isActive := true }

/-- A send using `tmplC10` with a variable named `(`. -/
def bodyC10 : SendBody :=
  { fromAddr := "alice@x.com", «to» := .single "bob@x.com",
    templateId := some "t1", vars := [("(", "x")] }

/-- The render of `tmplC10` with an escaped `<script>` value. -/
def rc8 : RenderedTemplate :=
  { subject := "Sub",
    html := "<h1>&lt;script&gt;alert(1)&lt;/script&gt;</h1>",
    templateId := "t1" }

/-- A deterministic tracking-id generator. -/
def genTrk : Nat → String := fun n => "id" ++ toString n

/-- An HTML body with two identical links, one mailto link, and an
upper-case closing body tag. -/
def htmlC7 : String :=
  "<html><a href=\"https://z\">L</a><a href=\"https://z\">M</a>" ++
  "<a href=\"mailto:q\">N</a></BODY></html>"

/-- The first anchor match of `htmlC7` (also of any
`<a href="https://z">` tag). -/
def anchC7 : AnchorMatch :=
  { aChar := 'a', wsRun := [' '], before := [], raw5 := "href=".toList,
    q1 := '"', url := "https://z".toList, q2 := '"', after := [] }

/-- A template whose subject and html each start with one literal `<`
ahead of the placeholder `[[k]]` (curly braces for the brackets). -/
def tmplC8d : TemplateRow :=
  { id := "t2", userId := "u1", slug := "s2",
    subject := "<b>\x7b\x7bk\x7d\x7d",
    htmlContent := "<i>\x7b\x7bk\x7d\x7d", isActive := true }

/-! Open-tracking ingress. -/

/-- Base64 value of one alphabet character. -/
def b64Val (c : Char) : Nat :=
  if 'A' ≤ c ∧ c ≤ 'Z' then c.toNat - 65
  else if 'a' ≤ c ∧ c ≤ 'z' then c.toNat - 97 + 26
  else if '0' ≤ c ∧ c ≤ '9' then c.toNat - 48 + 52
  else if c = '+' then 62
  else if c = '/' then 63
  else 0

/-- Base64 decoding (`Buffer.from(s, 'base64')`) to a byte list. -/
def base64DecodeList : List Char → List Nat
  | c1 :: c2 :: c3 :: c4 :: rest =>
      let n := b64Val c1 * 262144 + b64Val c2 * 4096 + b64Val c3 * 64 + b64Val c4
      let b1 := n / 65536 % 256
      let b2 := n / 256 % 256
      let b3 := n % 256
      if c3 = '=' then [b1]
      else if c4 = '=' then [b1, b2]
      else b1 :: b2 :: b3 :: base64DecodeList rest
  | _ => []

/-- The base64 constant of the 1×1 transparent GIF. -/
def TRANSPARENT_GIF_BASE64 : String :=
  "R0lGODlhAQABAIAAAAAAAP///yH5BAEAAAAALAAAAAABAAEAAAIBRAA7"

/-- The decoded GIF bytes served by the pixel endpoint. -/
def TRANSPARENT_GIF : List Nat := base64DecodeList TRANSPARENT_GIF_BASE64.toList

/-- The response of `GET /t/o/:id`: body bytes plus the four headers the
handler always sets. -/
structure PixelResponse where
  body : List Nat
  contentType : String
  cacheControl : String
  pragmaHeader : String
  expiresHeader : String
  deriving Repr, DecidableEq

/-- The constant pixel response. -/
def gifResponse : PixelResponse :=
  ⟨TRANSPARENT_GIF, "image/gif",
   "no-store, no-cache, must-revalidate, proxy-revalidate", "no-cache", "0"⟩

/-- Injection point of a thrown DB error inside the handler's `try`. -/
inductive OpenFailPoint where
  | lookup
  | update
  | insertEvent
  deriving Repr, DecidableEq

/-- The tables the open-tracking handler touches. -/
structure TrackState where
  opens : List OpenRow
  events : List EmailEvent
  deriving Repr, DecidableEq

/-- Truncation `s.substring(0, n)`. -/
def takeStr (n : Nat) (s : String) : String := String.mk (s.toList.take n)

/-- Embedding of the `GET /t/o/:id` handler: look the row up by id; if
found, set `openedAt` to its coalesced value and increment `openCount`
(SQL `openCount + 1`); if the prior `openedAt` was NULL additionally
insert one `opened` event.  A `dbFail` injection throws at the given
operation; the catch swallows it.  The GIF response is produced after
the try/catch, unconditionally.  (`ua`/`ip` arrive already derived from
the request headers.) -/
def trackOpenRoute (st : TrackState) (reqId : String) (now : Nat) (evId : String)
    (ua ip : String) (dbFail : Option OpenFailPoint := none) :
    TrackState × PixelResponse :=
  let st2 :=
    if dbFail = some .lookup then st
    else
      match st.opens.find? (fun r => decide (r.id = reqId)) with
      | none => st
      | some tr =>
          if dbFail = some .update then st
          else
            let opens2 := st.opens.map (fun r => if r.id = reqId then
              { r with openedAt := some (tr.openedAt.getD now),
                       openCount := r.openCount.map (fun x => x + 1) } else r)
            if tr.openedAt = none then
              if dbFail = some .insertEvent then { st with opens := opens2 }
              else
                let newEv : EmailEvent :=
                  { id := evId, userId := tr.userId, messageId := tr.messageId,
                    eventType := "opened", recipientEmail := tr.recipientEmail,
                    sendingDomain := tr.sendingDomain,
                    ipAddress := some (takeStr 45 ip),
                    userAgent := some (takeStr 500 ua),
                    metadata := some (.openedMeta reqId (tr.openCount.getD 0 + 1)) }
                { opens := opens2, events := st.events ++ [newEv] }
            else { st with opens := opens2 }
  (st2, gifResponse)

/-! Shared lemmas about the suppression engine. -/

/-- Membership characterization of `checkSuppression`'s result. -/
theorem mem_checkSuppression (rows : List SuppressionRow) (userId : String)
    (emails : List String) (domainId : Option String) (x : String) :
    x ∈ checkSuppression rows userId emails domainId ↔
      ∃ r ∈ rows, r.userId = userId ∧ r.email = x ∧
        x ∈ emails.map jsToLower ∧ r.reason ∈ BLOCKING_REASONS ∧
        suppDomainCond domainId r.domainId = true := by
  unfold checkSuppression
  split
  · rename_i hemp
    rw [List.isEmpty_iff] at hemp
    subst hemp
    simp
  · simp only [List.mem_map, List.mem_filter, Bool.and_eq_true, decide_eq_true_eq]
    constructor
    · rintro ⟨r, ⟨hmem, ⟨⟨⟨hu, he⟩, hr⟩, hd⟩⟩, hx⟩
      exact ⟨r, hmem, hu, hx, hx ▸ he, hr, hd⟩
    · rintro ⟨r, hmem, hu, hx, he, hr, hd⟩
      exact ⟨r, ⟨hmem, ⟨⟨⟨hu, hx ▸ he⟩, hr⟩, hd⟩⟩, hx⟩

/-- Number of suppression rows for a `(userId, email)` key. -/
def countSupp (rows : List SuppressionRow) (userId normalizedEmail : String) : Nat :=
  (rows.filter (fun r =>
    decide (r.userId = userId) && decide (r.email = normalizedEmail))).length

/-- The shared `findFirst` misses exactly when the key has no rows. -/
theorem findSuppRow_eq_none_iff (rows : List SuppressionRow) (u ne : String) :
    findSuppRow rows u ne = none ↔ countSupp rows u ne = 0 := by
  unfold findSuppRow countSupp
  rw [List.find?_eq_none, List.length_eq_zero, List.filter_eq_nil_iff]

/-- A hit of the shared `findFirst` means the key has at least one row. -/
theorem findSuppRow_some_count_pos (rows : List SuppressionRow) (u ne : String)
    (r : SuppressionRow) (h : findSuppRow rows u ne = some r) :
    1 ≤ countSupp rows u ne := by
  by_contra hc
  have h0 : countSupp rows u ne = 0 := by omega
  rw [← findSuppRow_eq_none_iff] at h0
  rw [h0] at h
  exact absurd h (by simp)

/-- Counting over an insert. -/
theorem countSupp_append_single (rows : List SuppressionRow) (r : SuppressionRow)
    (u ne : String) :
    countSupp (rows ++ [r]) u ne =
      countSupp rows u ne + (if r.userId = u ∧ r.email = ne then 1 else 0) := by
  unfold countSupp
  rw [List.filter_append, List.length_append]
  congr 1
  by_cases h : r.userId = u ∧ r.email = ne
  · simp [h.1, h.2]
  · rw [if_neg h]
    have : ¬(decide (r.userId = u) && decide (r.email = ne)) = true := by
      simpa [Decidable.not_and_iff_or_not] using h
    simp [List.filter_cons, this]

/-- An id-targeted update that changes neither `userId` nor `email`
leaves every key's row count unchanged. -/
theorem countSupp_updateRowById (rows : List SuppressionRow) (rowId : String)
    (f : SuppressionRow → SuppressionRow)
    (hf : ∀ r, (f r).userId = r.userId ∧ (f r).email = r.email)
    (u ne : String) :
    countSupp (updateRowById rows rowId f) u ne = countSupp rows u ne := by
  unfold countSupp updateRowById
  induction rows with
  | nil => rfl
  | cons r rows ih =>
      simp only [List.map_cons, List.filter_cons]
      by_cases hid : r.id = rowId
      · rw [if_pos hid]
        have h1 := (hf r).1
        have h2 := (hf r).2
        by_cases hp : (decide (r.userId = u) && decide (r.email = ne)) = true
        · have hp' : (decide ((f r).userId = u) && decide ((f r).email = ne)) = true := by
            rw [h1, h2]; exact hp
          rw [hp, hp']
          simpa using ih
        · have hp' : ¬(decide ((f r).userId = u) && decide ((f r).email = ne)) = true := by
            rw [h1, h2]; exact hp
        -- fallthrough handled below
          rw [Bool.eq_false_iff.mpr hp', Bool.eq_false_iff.mpr hp]
          simpa using ih
      · rw [if_neg hid]
        by_cases hp : (decide (r.userId = u) && decide (r.email = ne)) = true
        · rw [hp]; simpa using ih
        · rw [Bool.eq_false_iff.mpr hp]; simpa using ih

/-- The domain scope a suppression write stores always satisfies the
check's domain condition for the same supplied scope. -/
theorem suppDomainCond_jsOrNullStr (d : Option String) :
    suppDomainCond d (jsOrNullStr d) = true := by
  cases d with
  | none => simp [suppDomainCond, jsOrNullStr]
  | some s =>
      by_cases hs : s = ""
      · simp [suppDomainCond, jsOrNullStr, hs]
      · simp [suppDomainCond, jsOrNullStr, hs]

/-- A key with no rows has no row satisfying its predicate. -/
theorem countSupp_zero_no_row (rows : List SuppressionRow) (u ne : String)
    (h : countSupp rows u ne = 0) (r : SuppressionRow) (hr : r ∈ rows) :
    ¬(r.userId = u ∧ r.email = ne) := by
  rw [← findSuppRow_eq_none_iff] at h
  unfold findSuppRow at h
  rw [List.find?_eq_none] at h
  intro ⟨h1, h2⟩
  exact absurd (by simp [h1, h2]) (h r hr)

/-- C5 count lemma for `addToSuppression`. -/
theorem countSupp_addToSuppression (rows : List SuppressionRow)
    (newId u e reason : String) (s d : Option String) (m : Option SuppMeta)
    (u' ne' : String) :
    countSupp (addToSuppression rows newId u e reason s d m).1 u' ne' =
      if u' = u ∧ ne' = normEmail e then max (countSupp rows u' ne') 1
      else countSupp rows u' ne' := by
  cases hfind : findSuppRow rows u (normEmail e) with
  | some r =>
      have hpos := findSuppRow_some_count_pos _ _ _ _ hfind
      simp only [addToSuppression, hfind]
      by_cases hk : u' = u ∧ ne' = normEmail e
      · obtain ⟨h1, h2⟩ := hk
        subst h1; subst h2
        rw [if_pos ⟨rfl, rfl⟩]
        omega
      · rw [if_neg hk]
  | none =>
      have h0 := (findSuppRow_eq_none_iff _ _ _).mp hfind
      simp only [addToSuppression, hfind]
      rw [countSupp_append_single]
      by_cases hk : u' = u ∧ ne' = normEmail e
      · obtain ⟨h1, h2⟩ := hk
        subst h1; subst h2
        rw [if_pos ⟨rfl, rfl⟩, if_pos ⟨rfl, rfl⟩, h0]
        omega
      · rw [if_neg hk, if_neg (fun hc => hk ⟨hc.1.symm, hc.2.symm⟩), Nat.add_zero]

/-- C5 count lemma for `addToSuppressionInternal`. -/
theorem countSupp_addToSuppressionInternal (rows : List SuppressionRow)
    (newId u e reason : String) (s d : Option String) (m : Option SuppMeta)
    (u' ne' : String) :
    countSupp (addToSuppressionInternal rows newId u e reason s d m).1 u' ne' =
      if u' = u ∧ ne' = normEmail e then max (countSupp rows u' ne') 1
      else countSupp rows u' ne' := by
  cases hfind : findSuppRow rows u (normEmail e) with
  | some r =>
      have hpos := findSuppRow_some_count_pos _ _ _ _ hfind
      simp only [addToSuppressionInternal, hfind]
      by_cases hk : u' = u ∧ ne' = normEmail e
      · obtain ⟨h1, h2⟩ := hk
        subst h1; subst h2
        rw [if_pos ⟨rfl, rfl⟩]
        omega
      · rw [if_neg hk]
  | none =>
      have h0 := (findSuppRow_eq_none_iff _ _ _).mp hfind
      simp only [addToSuppressionInternal, hfind]
      rw [countSupp_append_single]
      by_cases hk : u' = u ∧ ne' = normEmail e
      · obtain ⟨h1, h2⟩ := hk
        subst h1; subst h2
        rw [if_pos ⟨rfl, rfl⟩, if_pos ⟨rfl, rfl⟩, h0]
        omega
      · rw [if_neg hk, if_neg (fun hc => hk ⟨hc.1.symm, hc.2.symm⟩), Nat.add_zero]

/-- C5 count lemma for `handleSoftBounce`. -/
theorem countSupp_handleSoftBounce (rows : List SuppressionRow)
    (newId : String) (now : Nat) (u e : String) (s d : Option String)
    (det : List (String × String)) (u' ne' : String) :
    countSupp (handleSoftBounce rows newId now u e s d det).1 u' ne' =
      if u' = u ∧ ne' = normEmail e then max (countSupp rows u' ne') 1
      else countSupp rows u' ne' := by
  cases hfind : findSuppRow rows u (normEmail e) with
  | some r =>
      have hpos := findSuppRow_some_count_pos _ _ _ _ hfind
      have hsame : countSupp (handleSoftBounce rows newId now u e s d det).1 u' ne' =
          countSupp rows u' ne' := by
        simp only [handleSoftBounce, hfind]
        split
        · rfl
        · split
          · apply countSupp_updateRowById
            intro x
            exact ⟨rfl, rfl⟩
          · apply countSupp_updateRowById
            intro x
            exact ⟨rfl, rfl⟩
      rw [hsame]
      by_cases hk : u' = u ∧ ne' = normEmail e
      · obtain ⟨h1, h2⟩ := hk
        subst h1; subst h2
        rw [if_pos ⟨rfl, rfl⟩]
        omega
      · rw [if_neg hk]
  | none =>
      have h0 := (findSuppRow_eq_none_iff _ _ _).mp hfind
      simp only [handleSoftBounce, hfind]
      rw [countSupp_append_single]
      by_cases hk : u' = u ∧ ne' = normEmail e
      · obtain ⟨h1, h2⟩ := hk
        subst h1; subst h2
        rw [if_pos ⟨rfl, rfl⟩, if_pos ⟨rfl, rfl⟩, h0]
        omega
      · rw [if_neg hk, if_neg (fun hc => hk ⟨hc.1.symm, hc.2.symm⟩), Nat.add_zero]

/-- One write against the suppression table, always for the same
`(userId, email)` pair: the manual route's add, the events route's
internal add (either auto-suppression reason), or a soft bounce. -/
inductive SuppOp where
  | manualAdd (newId reason : String) (src dom : Option String) (m : Option SuppMeta)
  | autoAdd (newId reason : String) (src dom : Option String) (m : Option SuppMeta)
  | softBounce (newId : String) (now : Nat) (src dom : Option String)
      (det : List (String × String))
  deriving Repr, DecidableEq

/-- Apply one suppression write for the pair `(userId, email)`. -/
def applySuppOp (userId email : String) (rows : List SuppressionRow) :
    SuppOp → List SuppressionRow
  | .manualAdd newId reason s d m =>
      (addToSuppression rows newId userId email reason s d m).1
  | .autoAdd newId reason s d m =>
      (addToSuppressionInternal rows newId userId email reason s d m).1
  | .softBounce newId now s d det =>
      (handleSoftBounce rows newId now userId email s d det).1

/-- Apply a sequence of suppression writes for one `(userId, email)`. -/
def applySuppOps (userId email : String) :
    List SuppressionRow → List SuppOp → List SuppressionRow
  | rows, [] => rows
  | rows, op :: ops => applySuppOps userId email (applySuppOp userId email rows op) ops

/-- Every suppression write leaves its key's row count at
`max count 1` and other keys untouched. -/
theorem countSupp_applySuppOp (u e : String) (rows : List SuppressionRow)
    (op : SuppOp) (u' ne' : String) :
    countSupp (applySuppOp u e rows op) u' ne' =
      if u' = u ∧ ne' = normEmail e then max (countSupp rows u' ne') 1
      else countSupp rows u' ne' := by
  cases op with
  | manualAdd newId reason s d m => exact countSupp_addToSuppression _ _ _ _ _ _ _ _ _ _
  | autoAdd newId reason s d m => exact countSupp_addToSuppressionInternal _ _ _ _ _ _ _ _ _ _
  | softBounce newId now s d det => exact countSupp_handleSoftBounce _ _ _ _ _ _ _ _ _ _

/-- The at-most-one-row invariant survives any write sequence. -/
theorem countSupp_applySuppOps_le_one (u e : String) (rows : List SuppressionRow)
    (ops : List SuppOp) (h : countSupp rows u (normEmail e) ≤ 1) :
    countSupp (applySuppOps u e rows ops) u (normEmail e) ≤ 1 := by
  induction ops generalizing rows with
  | nil => exact h
  | cons op ops ih =>
      apply ih
      rw [countSupp_applySuppOp, if_pos ⟨rfl, rfl⟩]
      omega

/-- C4: `checkSuppression(userId, emails, domainId?)` returns a set
containing a lowercased input email iff an `emailSuppression` row exists
for that user and email with a blocking reason (`hard_bounce`,
`complaint`, `unsubscribe` or `manual` — never `soft_bounce`) whose
`domainId` is NULL or equals the supplied `domainId`; with no supplied
`domainId`, only NULL-scoped rows match. -/
theorem checkSuppression_blocking_iff (rows : List SuppressionRow) (userId : String)
    (emails : List String) (domainId : Option String) (hdom : domainId ≠ some "")
    (e : String) (he : e ∈ emails) :
    jsToLower e ∈ checkSuppression rows userId emails domainId ↔
      ∃ r ∈ rows, r.userId = userId ∧ r.email = jsToLower e ∧
        (r.reason = "hard_bounce" ∨ r.reason = "complaint" ∨
         r.reason = "unsubscribe" ∨ r.reason = "manual") ∧
        (match domainId with
         | some d => r.domainId = none ∨ r.domainId = some d
         | none => r.domainId = none) := by
  rw [mem_checkSuppression]
  constructor
  · rintro ⟨r, hmem, hu, he', _hx, hr, hd⟩
    refine ⟨r, hmem, hu, he', ?_, ?_⟩
    · simpa [BLOCKING_REASONS] using hr
    · cases domainId with
      | none => simpa [suppDomainCond] using hd
      | some dd =>
          have hd' : dd ≠ "" := fun h => hdom (by rw [h])
          simp only [suppDomainCond, if_neg hd', Bool.or_eq_true,
            decide_eq_true_eq] at hd
          exact hd
  · rintro ⟨r, hmem, hu, he', hr, hd⟩
    refine ⟨r, hmem, hu, he', List.mem_map_of_mem _ he, ?_, ?_⟩
    · simpa [BLOCKING_REASONS] using hr
    · cases domainId with
      | none => simpa [suppDomainCond] using hd
      | some dd =>
          have hd' : dd ≠ "" := fun h => hdom (by rw [h])
          simp only [suppDomainCond, if_neg hd', Bool.or_eq_true,
            decide_eq_true_eq]
          exact hd

/-- Witness for the C4 theorem at a concrete instance. -/
theorem checkSuppression_blocking_iff_witness :
    ((some "d1" : Option String) ≠ some "") ∧ "Bob@X.com" ∈ ["Bob@X.com"] ∧
    (jsToLower "Bob@X.com" ∈ checkSuppression
        [{ id := "s1", userId := "u1", email := "bob@x.com", reason := "hard_bounce" }]
        "u1" ["Bob@X.com"] (some "d1") ↔
      ∃ r ∈ [({ id := "s1", userId := "u1", email := "bob@x.com",
                reason := "hard_bounce" } : SuppressionRow)],
        r.userId = "u1" ∧ r.email = jsToLower "Bob@X.com" ∧
        (r.reason = "hard_bounce" ∨ r.reason = "complaint" ∨
         r.reason = "unsubscribe" ∨ r.reason = "manual") ∧
        (r.domainId = none ∨ r.domainId = some "d1")) :=
  ⟨by decide, by decide,
   checkSuppression_blocking_iff _ "u1" _ (some "d1") (by decide) "Bob@X.com" (by decide)⟩

/-- C5: `addToSuppression` is idempotent — an existing `(userId, email)`
row is returned unchanged with no insert — and any sequence of writes
(manual adds, auto-suppression adds, soft bounces, in any mix of
reasons) preserves the invariant of at most one suppression row per
`(userId, email)`. -/
theorem addToSuppression_idempotent :
    (∀ (rows : List SuppressionRow) (newId u e reason : String)
       (s d : Option String) (m : Option SuppMeta) (r0 : SuppressionRow),
       findSuppRow rows u (normEmail e) = some r0 →
       addToSuppression rows newId u e reason s d m =
         (rows, ⟨r0.id, r0.email, r0.reason⟩)) ∧
    (∀ (u e : String) (rows : List SuppressionRow) (ops : List SuppOp),
       countSupp rows u (normEmail e) ≤ 1 →
       countSupp (applySuppOps u e rows ops) u (normEmail e) ≤ 1) := by
  constructor
  · intro rows newId u e reason s d m r0 h
    simp only [addToSuppression, h]
  · intro u e rows ops h
    exact countSupp_applySuppOps_le_one u e rows ops h

/-- Concrete manual-suppression row used by witnesses. -/
def manualBobRow : SuppressionRow :=
  { id := "s1", userId := "u1", email := "bob@x.com", reason := "manual" }

/-- Witness for the C5 theorem at concrete instances. -/
theorem addToSuppression_idempotent_witness :
    (findSuppRow [manualBobRow] "u1" (normEmail "Bob@x.com ") = some manualBobRow) ∧
    (addToSuppression [manualBobRow] "n2" "u1" "Bob@x.com " "hard_bounce"
        none none none = ([manualBobRow], ⟨"s1", "bob@x.com", "manual"⟩)) ∧
    countSupp ([] : List SuppressionRow) "u1" (normEmail "bob@x.com") ≤ 1 ∧
    countSupp (applySuppOps "u1" "bob@x.com" []
      [.manualAdd "i1" "manual" none none none,
       .autoAdd "i2" "hard_bounce" none none none,
       .softBounce "i3" 5 none none []]) "u1" (normEmail "bob@x.com") ≤ 1 :=
  ⟨by decide,
   addToSuppression_idempotent.1 [manualBobRow] "n2" "u1" "Bob@x.com " "hard_bounce"
     none none none manualBobRow (by decide),
   by decide,
   addToSuppression_idempotent.2 "u1" "bob@x.com" [] _ (by decide)⟩

/-- Lookup after an id-targeted update that keeps `userId` and `email`:
the found row is the update applied to the originally found row. -/
theorem findSuppRow_updateRowById (rows : List SuppressionRow) (rowId : String)
    (f : SuppressionRow → SuppressionRow)
    (hf : ∀ r, (f r).userId = r.userId ∧ (f r).email = r.email) (u ne : String) :
    findSuppRow (updateRowById rows rowId f) u ne =
      (findSuppRow rows u ne).map (fun r => if r.id = rowId then f r else r) := by
  unfold findSuppRow updateRowById
  rw [List.find?_map]
  have hpred : ((fun r => decide (r.userId = u) && decide (r.email = ne)) ∘
      fun r => if r.id = rowId then f r else r) =
      (fun r => decide (r.userId = u) && decide (r.email = ne)) := by
    funext r
    by_cases h : r.id = rowId
    · simp [Function.comp, h, (hf r).1, (hf r).2]
    · simp [Function.comp, h]
  rw [hpred]

/-- Append lookup: a miss on the left finds the appended matching row. -/
theorem findSuppRow_append_right (rows : List SuppressionRow) (r : SuppressionRow)
    (u ne : String) (h : findSuppRow rows u ne = none)
    (hu : r.userId = u) (he : r.email = ne) :
    findSuppRow (rows ++ [r]) u ne = some r := by
  unfold findSuppRow at h ⊢
  rw [List.find?_append, h]
  simp [List.find?, hu, he]

/-- The updated image of a row is in the id-targeted update of any list
containing it. -/
theorem mem_updateRowById_self (rows : List SuppressionRow) (r0 : SuppressionRow)
    (f : SuppressionRow → SuppressionRow) (h : r0 ∈ rows) :
    f r0 ∈ updateRowById rows r0.id f := by
  unfold updateRowById
  have := List.mem_map_of_mem (fun r => if r.id = r0.id then f r else r) h
  simpa using this

/-- The row inserted by a first soft bounce. -/
def freshSoftRow (newId : String) (now : Nat) (u ne : String) (s d : Option String)
    (det : List (String × String)) : SuppressionRow :=
  { id := newId, userId := u, domainId := jsOrNullStr d, email := ne,
    reason := "soft_bounce", sourceEventId := jsOrNullStr s,
    meta := some { softBounceCount := some 1, firstBounceAt := some now, extra := det } }

/-- Metadata after a second soft bounce on a freshly inserted row. -/
def bumpedSoftMeta (t1 t2 : Nat) (det1 det2 : List (String × String)) : SuppMeta :=
  { softBounceCount := some 2, firstBounceAt := some t1, lastBounceAt := some t2,
    extra := det1 ++ det2 }

/-- The row state after two soft bounces on a fresh key. -/
def secondSoftRow (i1 u ne : String) (s1 d : Option String) (t1 t2 : Nat)
    (det1 det2 : List (String × String)) : SuppressionRow :=
  { id := i1, userId := u, domainId := jsOrNullStr d, email := ne,
    reason := "soft_bounce", sourceEventId := jsOrNullStr s1,
    meta := some (bumpedSoftMeta t1 t2 det1 det2) }

/-- Metadata written by the third soft bounce's promotion. -/
def promotedMeta (t1 t2 t3 : Nat)
    (det1 det2 det3 : List (String × String)) : SuppMeta :=
  { softBounceCount := some 3, firstBounceAt := some t1, lastBounceAt := some t2,
    upgradedAt := some t3,
    upgradeReason := some "Upgraded after 3 consecutive soft bounces",
    extra := det1 ++ det2 ++ det3 }

/-- A stored `soft_bounce` row carrying `softBounceCount = 0` (creatable
through `POST /suppressions` with reason `soft_bounce` and caller
metadata). -/
def zeroCountSoftRow : SuppressionRow :=
  { id := "s1", userId := "u1", email := "c@x.com", reason := "soft_bounce",
    meta := some { softBounceCount := some 0 } }

/-- `find?` commutes with a `map` whose function preserves the
predicate (generic form). -/
theorem find?_map_pres {α : Type} (l : List α) (p : α → Bool)
    (g : α → α) (hg : ∀ x, p (g x) = p x) :
    (l.map g).find? p = (l.find? p).map g := by
  rw [List.find?_map]
  have hpred : (p ∘ g) = p := funext hg
  rw [hpred]

/-- `find?` commutes with a `map` whose function preserves the predicate. -/
theorem billing_find?_map (bs : List BillingRow) (p : BillingRow → Bool)
    (g : BillingRow → BillingRow) (hg : ∀ x, p (g x) = p x) :
    (bs.map g).find? p = (bs.find? p).map g := by
  rw [List.find?_map]
  have hpred : (p ∘ g) = p := funext hg
  rw [hpred]

/-- The billing list produced by a failed worker run, as one equation. -/
theorem processEmailJob_failed_billing (events : List EmailEvent)
    (bs : List BillingRow) (job : EmailJobData) (err : String)
    (am : Nat) (oa : Option Nat) :
    (processEmailJob events bs job (.failed err) am oa).2.1 =
      if am + 1 ≥ jobMaxAttempts oa then
        match bs.find? (fun b => decide (b.userId = job.userId)) with
        | some billing =>
            bs.map (fun b => if b.id = billing.id then
              { b with emailUsed := quotaRollbackValue b.emailUsed job.«to».length }
             else b)
        | none => bs
      else bs := by
  by_cases hterm : am + 1 ≥ jobMaxAttempts oa
  · rw [if_pos hterm]
    cases hfind : bs.find? (fun b => decide (b.userId = job.userId)) with
    | none =>
        simp only [processEmailJob]
        rw [if_pos hterm, hfind]
    | some billing =>
        simp only [processEmailJob]
        rw [if_pos hterm, hfind]
  · rw [if_neg hterm]
    simp only [processEmailJob]
    rw [if_neg hterm]

/-- Billing after a terminal failed attempt when the user has a billing
row: clamp-decrement that row. -/
theorem processEmailJob_failed_billing_found (events : List EmailEvent)
    (bs : List BillingRow) (job : EmailJobData) (err : String)
    (am : Nat) (oa : Option Nat) (billing : BillingRow)
    (hterm : am + 1 ≥ jobMaxAttempts oa)
    (hfind : bs.find? (fun b => decide (b.userId = job.userId)) = some billing) :
    (processEmailJob events bs job (.failed err) am oa).2.1 =
      bs.map (fun b => if b.id = billing.id then
        { b with emailUsed := quotaRollbackValue b.emailUsed job.«to».length }
       else b) := by
  simp only [processEmailJob]
  rw [if_pos hterm, hfind]

/-- `billingAdd` of an accepted send is the billing row id with the
recipient count, which is the length of the job recipient list. -/
theorem sendRouteFinish_billingAdd (cfg : TrackingConfig) (auth : AuthCtx)
    (body : SendBody) (gen : Nat → String) (nowIso : String)
    (fromParsed : ParsedAddr) (recipients : List String)
    (es eh et : Option String) (ev : List EmailEvent) (op : List OpenRow)
    (li : List LinkRow) (qa : Option (String × Nat)) (job : EmailJobData)
    (resp : SendResponse) :
    sendRouteFinish cfg auth body gen nowIso fromParsed recipients es eh et =
      .ok ev op li qa job resp →
    qa = auth.billing.map (fun b => (b.id, job.«to».length)) := by
  intro h
  unfold sendRouteFinish at h
  split at h
  · exact absurd h (by simp)
  · split at h
    · exact absurd h (by simp)
    · simp only [SendOutcome.ok.injEq] at h
      obtain ⟨-, -, -, hqa, hjob, -⟩ := h
      subst hqa
      subst hjob
      rfl

/-- C6 counterexample: on a `soft_bounce` row whose stored
`softBounceCount` is `0`, the code computes `newCount = (0 || 1) + 1 = 2`,
not the claimed `(0 ?? 1) + 1 = 1`. -/
theorem handleSoftBounce_zero_count_counterexample :
    ((handleSoftBounce [zeroCountSoftRow] "n9" 50 "u1" "c@x.com").1.map
      (fun r => r.meta.map (fun m => m.softBounceCount))) = [some (some 2)] ∧
    ((2 : Int) ≠ 0 + 1) := by
  constructor
  · rfl
  · decide

/-- C6 (amended): `handleSoftBounce` on the lower-trimmed key inserts a
`soft_bounce` row with count 1 when none exists; returns a
non-`soft_bounce` row unchanged (never downgrades); otherwise computes
`newCount = (softBounceCount, treated as 1 when absent or 0) + 1` and
promotes the row to `hard_bounce`, recording `upgradedAt`, exactly when
`newCount ≥ 3`; hence after the 3rd soft bounce for a fresh
`(userId, email)` the address is returned by `checkSuppression`, and
after 1 or 2 it is not. -/
theorem handleSoftBounce_accumulate_promote :
    (∀ (rows : List SuppressionRow) (newId : String) (now : Nat) (u e : String)
       (s d : Option String) (det : List (String × String)),
       findSuppRow rows u (normEmail e) = none →
       ∃ r, (handleSoftBounce rows newId now u e s d det).1 = rows ++ [r] ∧
         r.userId = u ∧ r.email = normEmail e ∧ r.reason = "soft_bounce" ∧
         r.meta.map (fun m => m.softBounceCount) = some (some 1)) ∧
    (∀ (rows : List SuppressionRow) (newId : String) (now : Nat) (u e : String)
       (s d : Option String) (det : List (String × String)) (r0 : SuppressionRow),
       findSuppRow rows u (normEmail e) = some r0 → r0.reason ≠ "soft_bounce" →
       handleSoftBounce rows newId now u e s d det =
         (rows, ⟨r0.id, r0.email, r0.reason, false⟩)) ∧
    (∀ (rows : List SuppressionRow) (newId : String) (now : Nat) (u e : String)
       (s d : Option String) (det : List (String × String)) (r0 : SuppressionRow)
       (newCount : Int),
       findSuppRow rows u (normEmail e) = some r0 → r0.reason = "soft_bounce" →
       newCount = (match (r0.meta.getD {}).softBounceCount with
         | some n => if n = 0 then 1 else n
         | none => 1) + 1 →
       ((handleSoftBounce rows newId now u e s d det).2.reason =
          if 3 ≤ newCount then "hard_bounce" else "soft_bounce") ∧
       ((handleSoftBounce rows newId now u e s d det).2.upgraded =
          decide (3 ≤ newCount)) ∧
       (∃ r' ∈ (handleSoftBounce rows newId now u e s d det).1,
          r'.id = r0.id ∧
          r'.reason = (if 3 ≤ newCount then "hard_bounce" else "soft_bounce") ∧
          r'.meta.map (fun m => m.softBounceCount) = some (some newCount) ∧
          (3 ≤ newCount → r'.meta.map (fun m => m.upgradedAt) = some (some now)))) ∧
    (∀ (rows : List SuppressionRow) (u e ne : String) (d : Option String)
       (i1 i2 i3 : String) (t1 t2 t3 : Nat) (s1 s2 s3 : Option String)
       (det1 det2 det3 : List (String × String)),
       ne = normEmail e → jsToLower ne = ne → countSupp rows u ne = 0 →
       (ne ∉ checkSuppression
          ((handleSoftBounce rows i1 t1 u e s1 d det1).1) u [ne] d) ∧
       (ne ∉ checkSuppression
          ((handleSoftBounce ((handleSoftBounce rows i1 t1 u e s1 d det1).1)
             i2 t2 u e s2 d det2).1) u [ne] d) ∧
       (ne ∈ checkSuppression
          ((handleSoftBounce ((handleSoftBounce
             ((handleSoftBounce rows i1 t1 u e s1 d det1).1)
             i2 t2 u e s2 d det2).1) i3 t3 u e s3 d det3).1) u [ne] d)) := by
  refine ⟨?_, ?_, ?_, ?_⟩
  · intro rows newId now u e s d det h
    refine ⟨freshSoftRow newId now u (normEmail e) s d det, ?_, rfl, rfl, rfl, rfl⟩
    simp only [handleSoftBounce, h, freshSoftRow]
  · intro rows newId now u e s d det r0 h hr
    simp only [handleSoftBounce, h, if_pos hr]
  · intro rows newId now u e s d det r0 newCount h hr hnc
    have hcnt : softBounceCountOrOne (r0.meta.getD {}) + 1 = newCount := by
      rw [hnc]; rfl
    have hmem0 : r0 ∈ rows := List.mem_of_find?_eq_some h
    have hne2 : ¬(r0.reason ≠ "soft_bounce") := fun hc => hc hr
    by_cases h3 : 3 ≤ newCount
    · have hthr : softBounceCountOrOne (r0.meta.getD {}) + 1 ≥ SOFT_BOUNCE_THRESHOLD := by
        show SOFT_BOUNCE_THRESHOLD ≤ _
        rw [hcnt]; exact h3
      simp only [handleSoftBounce, h]
      rw [if_neg hne2, if_pos hthr]
      refine ⟨by simp [h3], by simp [h3], ?_⟩
      refine ⟨_, mem_updateRowById_self rows r0 _ hmem0, ?_⟩
      exact ⟨rfl, by simp [h3], by simp [hcnt], fun _ => rfl⟩
    · have hthr : ¬(softBounceCountOrOne (r0.meta.getD {}) + 1 ≥ SOFT_BOUNCE_THRESHOLD) := by
        show ¬(SOFT_BOUNCE_THRESHOLD ≤ _)
        rw [hcnt]; exact h3
      simp only [handleSoftBounce, h]
      rw [if_neg hne2, if_neg hthr]
      refine ⟨by simp [h3], by simp [h3], ?_⟩
      refine ⟨_, mem_updateRowById_self rows r0 _ hmem0, ?_⟩
      exact ⟨rfl, by simp [h3, hr], by simp [hcnt], fun hc => absurd hc h3⟩
  · intro rows u e ne d i1 i2 i3 t1 t2 t3 s1 s2 s3 det1 det2 det3 hne hlow hcount
    subst hne
    have hf0 : findSuppRow rows u (normEmail e) = none :=
      (findSuppRow_eq_none_iff _ _ _).mpr hcount
    have h1 : (handleSoftBounce rows i1 t1 u e s1 d det1).1 =
        rows ++ [freshSoftRow i1 t1 u (normEmail e) s1 d det1] := by
      simp only [handleSoftBounce, hf0, freshSoftRow]
    have hnokey : ∀ r ∈ rows, ¬(r.userId = u ∧ r.email = normEmail e) :=
      countSupp_zero_no_row rows u (normEmail e) hcount
    have hfind1 : findSuppRow (rows ++ [freshSoftRow i1 t1 u (normEmail e) s1 d det1])
        u (normEmail e) = some (freshSoftRow i1 t1 u (normEmail e) s1 d det1) :=
      findSuppRow_append_right _ _ _ _ hf0 rfl rfl
    have h2 : (handleSoftBounce (rows ++ [freshSoftRow i1 t1 u (normEmail e) s1 d det1])
        i2 t2 u e s2 d det2).1 =
        updateRowById (rows ++ [freshSoftRow i1 t1 u (normEmail e) s1 d det1]) i1
          (fun r => { r with meta := some (bumpedSoftMeta t1 t2 det1 det2) }) := by
      simp only [handleSoftBounce, hfind1]
      rfl
    have hfind2 : findSuppRow ((handleSoftBounce
        (rows ++ [freshSoftRow i1 t1 u (normEmail e) s1 d det1])
        i2 t2 u e s2 d det2).1) u (normEmail e) =
        some (secondSoftRow i1 u (normEmail e) s1 d t1 t2 det1 det2) := by
      rw [h2, findSuppRow_updateRowById _ i1
        (fun r => { r with meta := some (bumpedSoftMeta t1 t2 det1 det2) })
        (fun r => ⟨rfl, rfl⟩), hfind1, Option.map_some',
        if_pos (show (freshSoftRow i1 t1 u (normEmail e) s1 d det1).id = i1 from rfl)]
      rfl
    have h3gen : ∀ st2, findSuppRow st2 u (normEmail e) =
        some (secondSoftRow i1 u (normEmail e) s1 d t1 t2 det1 det2) →
        (handleSoftBounce st2 i3 t3 u e s3 d det3).1 =
        updateRowById st2 i1
          (fun r => { r with reason := "hard_bounce",
                             meta := some (promotedMeta t1 t2 t3 det1 det2 det3) }) := by
      intro st2 hf
      simp only [handleSoftBounce, hf]
      rw [if_neg (show ¬((secondSoftRow i1 u (normEmail e) s1 d t1 t2
            det1 det2).reason ≠ "soft_bounce") from fun hc => hc rfl),
          if_pos (show softBounceCountOrOne ((secondSoftRow i1 u (normEmail e) s1 d t1 t2
            det1 det2).meta.getD {}) + 1 ≥ SOFT_BOUNCE_THRESHOLD from
            of_decide_eq_true rfl)]
      rfl
    have h3 : (handleSoftBounce ((handleSoftBounce
        (rows ++ [freshSoftRow i1 t1 u (normEmail e) s1 d det1])
        i2 t2 u e s2 d det2).1) i3 t3 u e s3 d det3).1 =
        updateRowById ((handleSoftBounce
          (rows ++ [freshSoftRow i1 t1 u (normEmail e) s1 d det1])
          i2 t2 u e s2 d det2).1) i1
          (fun r => { r with reason := "hard_bounce",
                             meta := some (promotedMeta t1 t2 t3 det1 det2 det3) }) :=
      h3gen _ hfind2
    have hmap : ∀ (f : SuppressionRow → SuppressionRow),
        (∀ x, (f x).userId = x.userId ∧ (f x).email = x.email ∧
              (f x).reason = x.reason) →
        ∀ r ∈ updateRowById (rows ++ [freshSoftRow i1 t1 u (normEmail e) s1 d det1])
          i1 f, r.userId = u → r.email = normEmail e → r.reason = "soft_bounce" := by
      intro f hf r hr hu he
      unfold updateRowById at hr
      obtain ⟨x, hx, hgx⟩ := List.mem_map.mp hr
      rcases List.mem_append.mp hx with hx' | hx'
      · exfalso
        apply hnokey x hx'
        by_cases hid : x.id = i1
        · rw [← hgx] at hu he
          simp only [if_pos hid] at hu he
          exact ⟨(hf x).1 ▸ hu, (hf x).2.1 ▸ he⟩
        · rw [← hgx] at hu he
          simp only [if_neg hid] at hu he
          exact ⟨hu, he⟩
      · have hx1 : x = freshSoftRow i1 t1 u (normEmail e) s1 d det1 := by
          simpa using hx'
        subst hx1
        rw [← hgx]
        by_cases hid : (freshSoftRow i1 t1 u (normEmail e) s1 d det1).id = i1
        · rw [if_pos hid, (hf _).2.2]
          rfl
        · rw [if_neg hid]
          rfl
    refine ⟨?_, ?_, ?_⟩
    · rw [h1, mem_checkSuppression]
      rintro ⟨r, hmem, hu, he, _, hreason, _⟩
      rcases List.mem_append.mp hmem with hr | hr
      · exact hnokey r hr ⟨hu, he⟩
      · have : r = freshSoftRow i1 t1 u (normEmail e) s1 d det1 := by simpa using hr
        subst this
        exact absurd hreason (of_decide_eq_true rfl)
    · rw [h1, h2, mem_checkSuppression]
      rintro ⟨r, hmem, hu, he, _, hreason, _⟩
      have hsoft : r.reason = "soft_bounce" :=
        hmap (fun r => { r with meta := some (bumpedSoftMeta t1 t2 det1 det2) })
          (fun x => ⟨rfl, rfl, rfl⟩) r hmem hu he
      rw [hsoft] at hreason
      exact absurd hreason (of_decide_eq_true rfl)
    · rw [h1, h3, mem_checkSuppression]
      have hmem2 : secondSoftRow i1 u (normEmail e) s1 d t1 t2 det1 det2 ∈
          (handleSoftBounce (rows ++ [freshSoftRow i1 t1 u (normEmail e) s1 d det1])
            i2 t2 u e s2 d det2).1 :=
        List.mem_of_find?_eq_some hfind2
      refine ⟨_, mem_updateRowById_self _
        (secondSoftRow i1 u (normEmail e) s1 d t1 t2 det1 det2)
        (fun r => { r with reason := "hard_bounce",
                           meta := some (promotedMeta t1 t2 t3 det1 det2 det3) })
        hmem2, rfl, rfl, ?_, of_decide_eq_true rfl, suppDomainCond_jsOrNullStr d⟩
      rw [List.mem_map]
      exact ⟨normEmail e, List.mem_singleton_self _, hlow⟩

theorem handleSoftBounce_accumulate_promote_witness :
    ("c@x.com" ∉ checkSuppression
       ((handleSoftBounce ([] : List SuppressionRow)
          "i1" 1 "u1" "c@x.com" none none []).1) "u1" ["c@x.com"] none) ∧
    ("c@x.com" ∈ checkSuppression
       ((handleSoftBounce ((handleSoftBounce
          ((handleSoftBounce ([] : List SuppressionRow)
             "i1" 1 "u1" "c@x.com" none none []).1)
          "i2" 2 "u1" "c@x.com" none none []).1)
          "i3" 3 "u1" "c@x.com" none none []).1) "u1" ["c@x.com"] none) := by
  have h := handleSoftBounce_accumulate_promote.2.2.2
    [] "u1" "c@x.com" "c@x.com" none "i1" "i2" "i3" 1 2 3 none none none [] [] []
    (by decide) (by decide) (by decide)
  exact ⟨h.1, h.2.2⟩


/-- C3: over a send's lifetime with recipient list R and an existing
billing row, `emailUsed` is incremented by `|R|` at accept (the accepted
route emits exactly the billing-add instruction `(billingRowId, |R|)`,
and applying it bumps the stored value by `|R|`); the worker never
touches billing on relay accept or on a non-terminal failed attempt; on
the terminal failed attempt it clamp-decrements by `|R|`
(`GREATEST(0, emailUsed - N)`), restoring the pre-send row exactly when
the pre-send value was non-negative; and both billing writes preserve
non-negativity of `emailUsed`. -/
theorem quota_lifecycle :
    (∀ (bs : List BillingRow) (b : BillingRow) (u : Int) (n : Nat),
       bs.find? (fun x => decide (x.id = b.id)) = some b →
       b.emailUsed = some u →
       (applyQuotaAdd bs b.id n).find? (fun x => decide (x.id = b.id)) =
         some { b with emailUsed := some (u + (n : Int)) }) ∧
    (∀ (cfg : TrackingConfig) (templates : List TemplateRow) (auth : AuthCtx)
       (body : SendBody) (gen : Nat → String) (nowIso : String)
       (ev : List EmailEvent) (op : List OpenRow) (li : List LinkRow)
       (qa : Option (String × Nat)) (job : EmailJobData) (resp : SendResponse),
       sendRoute cfg templates auth body gen nowIso = .ok ev op li qa job resp →
       qa = auth.billing.map (fun b => (b.id, job.«to».length))) ∧
    (∀ (events : List EmailEvent) (bs : List BillingRow) (job : EmailJobData)
       (resp : String) (am : Nat) (oa : Option Nat),
       (processEmailJob events bs job (.accepted resp) am oa).2.1 = bs) ∧
    (∀ (events : List EmailEvent) (bs : List BillingRow) (job : EmailJobData)
       (err : String) (am : Nat) (oa : Option Nat),
       am + 1 < jobMaxAttempts oa →
       (processEmailJob events bs job (.failed err) am oa).2.1 = bs) ∧
    (∀ (events : List EmailEvent) (bs : List BillingRow) (b : BillingRow)
       (u : Int) (job : EmailJobData) (err : String) (am : Nat) (oa : Option Nat),
       bs.find? (fun x => decide (x.userId = job.userId)) = some b →
       b.emailUsed = some u → 0 ≤ u →
       am + 1 ≥ jobMaxAttempts oa →
       (processEmailJob events (applyQuotaAdd bs b.id job.«to».length) job
          (.failed err) am oa).2.1.find?
            (fun x => decide (x.userId = job.userId)) = some b) ∧
    (∀ (bs : List BillingRow) (billingId : String) (n : Nat),
       (∀ x ∈ bs, 0 ≤ x.emailUsed.getD 0) →
       ∀ x ∈ applyQuotaAdd bs billingId n, 0 ≤ x.emailUsed.getD 0) ∧
    (∀ (events : List EmailEvent) (bs : List BillingRow) (job : EmailJobData)
       (outcome : SmtpOutcome) (am : Nat) (oa : Option Nat),
       (∀ x ∈ bs, 0 ≤ x.emailUsed.getD 0) →
       ∀ x ∈ (processEmailJob events bs job outcome am oa).2.1,
         0 ≤ x.emailUsed.getD 0) := by
  refine ⟨?_, ?_, ?_, ?_, ?_, ?_, ?_⟩
  · intro bs b u n hfind hu
    unfold applyQuotaAdd
    rw [billing_find?_map bs (fun x => decide (x.id = b.id))
        (fun bb => if bb.id = b.id then
          { bb with emailUsed := bb.emailUsed.map (fun x => x + (n : Int)) }
         else bb)
        (fun x => by by_cases h : x.id = b.id <;> simp [h]), hfind]
    simp [hu]
  · intro cfg templates auth body gen nowIso ev op li qa job resp h
    simp only [sendRoute] at h
    repeat' split at h
    all_goals
      first
        | exact sendRouteFinish_billingAdd _ _ _ _ _ _ _ _ _ _ _ _ _ _ _ _ h
        | simp at h
  · intro events bs job resp am oa
    rfl
  · intro events bs job err am oa hlt
    rw [processEmailJob_failed_billing, if_neg (by omega)]
  · intro events bs b u job err am oa hfind hu hnn hterm
    have hfind2 : (applyQuotaAdd bs b.id job.«to».length).find?
        (fun x => decide (x.userId = job.userId)) =
        some { b with emailUsed := some (u + (job.«to».length : Int)) } := by
      unfold applyQuotaAdd
      rw [billing_find?_map bs (fun x => decide (x.userId = job.userId))
          (fun bb => if bb.id = b.id then
            { bb with emailUsed :=
              bb.emailUsed.map (fun x => x + ((job.«to».length : Nat) : Int)) }
           else bb)
          (fun x => by by_cases h : x.id = b.id <;> simp [h]), hfind]
      simp [hu]
    rw [processEmailJob_failed_billing_found _ _ _ _ _ _ _ hterm hfind2]
    unfold applyQuotaAdd
    rw [List.map_map,
        billing_find?_map bs (fun x => decide (x.userId = job.userId)) _
          (fun x => by
            by_cases h : x.id = b.id <;> simp [Function.comp, h]), hfind]
    simp [Function.comp, quotaRollbackValue, hu]
    rw [show ((0 : Int) ⊔ u) = u from by omega, ← hu]
  · intro bs billingId n h x hx
    unfold applyQuotaAdd at hx
    obtain ⟨y, hy, rfl⟩ := List.mem_map.mp hx
    by_cases hid : y.id = billingId
    · rw [if_pos hid]
      cases hyu : y.emailUsed with
      | none => simp
      | some v =>
          have := h y hy
          rw [hyu] at this
          simp at this ⊢
          omega
    · rw [if_neg hid]
      exact h y hy
  · intro events bs job outcome am oa h x hx
    cases outcome with
    | accepted resp => exact h x hx
    | failed err =>
        rw [processEmailJob_failed_billing] at hx
        by_cases hterm : am + 1 ≥ jobMaxAttempts oa
        · rw [if_pos hterm] at hx
          cases hfind : bs.find? (fun b => decide (b.userId = job.userId)) with
          | none =>
              rw [hfind] at hx
              exact h x hx
          | some billing =>
              rw [hfind] at hx
              obtain ⟨y, hy, rfl⟩ := List.mem_map.mp hx
              by_cases hid : y.id = billing.id
              · rw [if_pos hid]
                cases hyu : y.emailUsed <;> simp [quotaRollbackValue]
              · rw [if_neg hid]
                exact h y hy
        · rw [if_neg hterm] at hx
          exact h x hx


theorem quota_lifecycle_witness :
    ((applyQuotaAdd [billW] billW.id 2).find? (fun x => decide (x.id = billW.id)) =
      some { billW with emailUsed := some ((5 : Int) + ((2 : Nat) : Int)) }) ∧
    ((processEmailJob [] (applyQuotaAdd [billW] billW.id jobW.«to».length) jobW
        (.failed "relay down") 2 none).2.1.find?
        (fun x => decide (x.userId = jobW.userId)) = some billW) :=
  ⟨quota_lifecycle.1 [billW] billW 5 2 (by decide) rfl,
   quota_lifecycle.2.2.2.2.1 [] [billW] billW 5 jobW "relay down" 2 none
     (by decide) rfl (by decide) (by decide)⟩


/-- Events inserted by the per-recipient loop: one per recipient, in
order, all `queued`. -/
theorem sendInsertLoop_events (auth : AuthCtx) (cfg : TrackingConfig)
    (gen : Nat → String) (messageId emailSubject : String)
    (fromParsed : ParsedAddr) (replyTo templateId : Option String)
    (jobId : String) (tracking : Option AppliedTracking)
    (firstRecipient : Option String) (addrs : List String) : ∀ (ctr : Nat),
    ((sendInsertLoop auth cfg gen messageId emailSubject fromParsed replyTo
        templateId jobId tracking firstRecipient addrs ctr).1.map
      (fun e => e.recipientEmail) = addrs) ∧
    (∀ e ∈ (sendInsertLoop auth cfg gen messageId emailSubject fromParsed
        replyTo templateId jobId tracking firstRecipient addrs ctr).1,
      e.eventType = "queued") := by
  induction addrs with
  | nil =>
      intro ctr
      exact ⟨rfl, by intro e he; simp [sendInsertLoop] at he⟩
  | cons addr rest ih =>
      intro ctr
      cases tracking with
      | none =>
          refine ⟨?_, ?_⟩
          · simp only [sendInsertLoop, List.map_cons]
            rw [(ih _).1]
          · intro e he
            simp only [sendInsertLoop, List.mem_cons] at he
            rcases he with rfl | he
            · rfl
            · exact (ih _).2 e he
      | some td =>
          refine ⟨?_, ?_⟩
          · simp only [sendInsertLoop, List.map_cons]
            rw [(ih _).1]
          · intro e he
            simp only [sendInsertLoop, List.mem_cons] at he
            rcases he with rfl | he
            · rfl
            · exact (ih _).2 e he

/-- Payload shape of an accepted `sendRouteFinish`: the job carries the
full recipient list, the events are exactly one `queued` row per
recipient, and the response reports all recipients as queued. -/
theorem sendRouteFinish_payload (cfg : TrackingConfig) (auth : AuthCtx)
    (body : SendBody) (gen : Nat → String) (nowIso : String)
    (fromParsed : ParsedAddr) (recipients : List String)
    (es eh et : Option String) (ev : List EmailEvent) (op : List OpenRow)
    (li : List LinkRow) (qa : Option (String × Nat)) (job : EmailJobData)
    (resp : SendResponse) :
    sendRouteFinish cfg auth body gen nowIso fromParsed recipients es eh et =
      .ok ev op li qa job resp →
    job.«to» = recipients ∧
    ev.map (fun e => e.recipientEmail) = recipients ∧
    (∀ e ∈ ev, e.eventType = "queued") ∧
    resp.recipients = recipients.length ∧ resp.status = "queued" := by
  intro h
  unfold sendRouteFinish at h
  split at h
  · exact absurd h (by simp)
  · split at h
    · exact absurd h (by simp)
    · simp only [SendOutcome.ok.injEq] at h
      obtain ⟨hev, -, -, -, hjob, hresp⟩ := h
      subst hev
      subst hjob
      subst hresp
      exact ⟨rfl, (sendInsertLoop_events _ _ _ _ _ _ _ _ _ _ _ _ _).1,
             (sendInsertLoop_events _ _ _ _ _ _ _ _ _ _ _ _ _).2, rfl, rfl⟩

/-- C1 counterexample: the send route accepts a request whose sole
recipient has a blocking `hard_bounce` suppression row for the same user;
the suppression check (never invoked on this path) would have returned
the address, yet the queued event and the job `to` list still carry it. -/
theorem sendRoute_suppressed_recipient_counterexample :
    checkSuppression suppBob "u1" [jsToLower "bob@x.com"] (some "d1") =
      ["bob@x.com"] ∧
    sendRoute cfgBob [] authBob bodyBob genBob "now" =
      .ok [evBob] [] [] none jobBob respBob ∧
    jobBob.«to» = ["bob@x.com"] ∧
    evBob.recipientEmail = "bob@x.com" ∧ evBob.eventType = "queued" := by
  refine ⟨by decide, by decide, rfl, rfl, rfl⟩

/-- C1 (amended): the send route performs no suppression filtering at
all — the suppression table is not among its inputs.  Every accepted
send carries the complete request recipient list unchanged into the
queued event rows, the job payload and the response count; no recipient
is ever excluded, suppressed or not. -/
theorem sendRoute_no_suppression_filtering :
    ∀ (cfg : TrackingConfig) (templates : List TemplateRow) (auth : AuthCtx)
      (body : SendBody) (gen : Nat → String) (nowIso : String)
      (ev : List EmailEvent) (op : List OpenRow) (li : List LinkRow)
      (qa : Option (String × Nat)) (job : EmailJobData) (resp : SendResponse),
      sendRoute cfg templates auth body gen nowIso = .ok ev op li qa job resp →
      job.«to» = body.«to».recipients ∧
      ev.map (fun e => e.recipientEmail) = body.«to».recipients ∧
      (∀ e ∈ ev, e.eventType = "queued") ∧
      resp.recipients = body.«to».recipients.length ∧
      resp.status = "queued" := by
  intro cfg templates auth body gen nowIso ev op li qa job resp h
  simp only [sendRoute] at h
  repeat' split at h
  all_goals
    first
      | exact sendRouteFinish_payload _ _ _ _ _ _ _ _ _ _ _ _ _ _ _ _ h
      | simp at h

theorem sendRoute_no_suppression_filtering_witness :
    jobBob.«to» = bodyBob.«to».recipients ∧
    [evBob].map (fun e => e.recipientEmail) = bodyBob.«to».recipients ∧
    respBob.recipients = bodyBob.«to».recipients.length ∧
    respBob.status = "queued" := by
  have h := sendRoute_no_suppression_filtering cfgBob [] authBob bodyBob
    genBob "now" [evBob] [] [] none jobBob respBob (by decide)
  exact ⟨h.1, h.2.1, h.2.2.2.1, h.2.2.2.2⟩


/-- C2: with tracking enabled the send route stores the open-tracking
row under id `g2_g5` (`openTrackingId ++ "_" ++ nanoid(8)`) but embeds
the pixel URL `/t/o/g2` (the bare `openTrackingId`), so the GET the
pixel actually triggers matches no row: the tables are unchanged, no
`opened` event is inserted, `openCount` stays 0, and only the GIF comes
back — on both the first and every later hit.  The stored row itself is
live: a GET with the stored id `g2_g5` does increment `openCount` and
insert the `opened` event, proving the mismatch is between the two ids,
not in the handler. -/
theorem openTracking_pixel_id_mismatch :
    sendRoute cfgTrk [] authBob bodyTrk genBob "now" =
      .ok [evTrk] [openTrk] [linkTrk] none jobTrk respTrk ∧
    openTrk.id = "g2_g5" ∧
    jobTrk.html = some ("<p><a href=\"http://t/t/c/g3\">L</a></p><img " ++
      "src=\"http://t/t/o/g2\" width=\"1\" height=\"1\" alt=\"\" " ++
      "style=\"display:none;width:1px;height:1px;border:0;\" />") ∧
    ([openTrk].find? (fun r => decide (r.id = "g2")) = none) ∧
    (trackOpenRoute ⟨[openTrk], []⟩ "g2" 10 "e1" "ua" "ip" =
      (⟨[openTrk], []⟩, gifResponse)) ∧
    (trackOpenRoute
        ((trackOpenRoute ⟨[openTrk], []⟩ "g2" 10 "e1" "ua" "ip").1)
        "g2" 11 "e2" "ua" "ip" =
      (⟨[openTrk], []⟩, gifResponse)) ∧
    ((trackOpenRoute ⟨[openTrk], []⟩ "g2_g5" 10 "e1" "ua" "ip").1 =
      ⟨[{ openTrk with openedAt := some 10, openCount := some 1 }],
       [{ id := "e1", userId := "u1", messageId := "<g1@x.com>",
          eventType := "opened", recipientEmail := "bob@x.com",
          sendingDomain := some "x.com", ipAddress := some "ip",
          userAgent := some "ua",
          metadata := some (.openedMeta "g2_g5" 1) }]⟩) := by
  refine ⟨by decide, rfl, rfl, by decide, by decide, by decide, by decide⟩


/-- C10: the renderer builds its placeholder regex around the raw
variable name.  A name of `(` makes the `RegExp` constructor throw, so a
valid send request using a template dies with a 500; and a name is
interpreted as a regex pattern, not literally: the name `a.b` rewrites
the unrelated placeholder `axb` through the `.` wildcard. -/
theorem renderTemplate_regex_injection :
    (compilePattern (buildPlaceholderPattern "(").toList = none) ∧
    (renderTemplate [tmplC10] "t1" "u1" [("(", "x")] =
      .error ("Invalid regular expression: " ++ buildPlaceholderPattern "(")) ∧
    (sendRoute cfgBob [tmplC10] authBob bodyC10 genBob "now" =
      .err 500 "Internal Server Error" "Failed to process request") ∧
    (renderTemplate [tmplC10] "t1" "u1" [("a.b", "V")] =
      .ok (some { subject := "Sub", html := "<h1>V</h1>", templateId := "t1" })) := by
  refine ⟨by decide, by rfl, by decide, by rfl⟩


/-- C9: `GET /t/o/:id` always answers with the constant GIF response —
42 bytes, `image/gif`, no-store cache headers — for any state, unknown
ids included, and at every injected DB-failure point; when the id
matches a row, `openCount` is incremented on every hit and `openedAt`
is set (kept on later hits), while the `opened` event is inserted only
when the prior `openedAt` was NULL — so two sequential hits on a fresh
row leave `openCount` at 2 and exactly one `opened` event. -/
theorem trackOpen_gif_and_first_open :
    (∀ (st : TrackState) (reqId : String) (now : Nat) (evId ua ip : String)
       (dbFail : Option OpenFailPoint),
       (trackOpenRoute st reqId now evId ua ip dbFail).2 = gifResponse) ∧
    (TRANSPARENT_GIF.length = 42 ∧ gifResponse.body = TRANSPARENT_GIF ∧
     gifResponse.contentType = "image/gif" ∧
     gifResponse.cacheControl = "no-store, no-cache, must-revalidate, proxy-revalidate") ∧
    (∀ (st : TrackState) (reqId : String) (now : Nat) (evId ua ip : String),
       st.opens.find? (fun r => decide (r.id = reqId)) = none →
       (trackOpenRoute st reqId now evId ua ip).1 = st) ∧
    (∀ (st : TrackState) (reqId : String) (now : Nat) (evId ua ip : String)
       (tr : OpenRow),
       st.opens.find? (fun r => decide (r.id = reqId)) = some tr →
       ((trackOpenRoute st reqId now evId ua ip).1.opens.find?
           (fun r => decide (r.id = reqId)) =
         some { tr with openedAt := some (tr.openedAt.getD now),
                        openCount := tr.openCount.map (fun x => x + 1) }) ∧
       ((trackOpenRoute st reqId now evId ua ip).1.events =
         if tr.openedAt = none then
           st.events ++
             [{ id := evId, userId := tr.userId, messageId := tr.messageId,
                eventType := "opened", recipientEmail := tr.recipientEmail,
                sendingDomain := tr.sendingDomain,
                ipAddress := some (takeStr 45 ip),
                userAgent := some (takeStr 500 ua),
                metadata := some (.openedMeta reqId (tr.openCount.getD 0 + 1)) }]
         else st.events)) ∧
    (∀ (st : TrackState) (reqId : String) (now1 now2 : Nat)
       (evId1 evId2 ua ip : String) (tr : OpenRow) (c : Int),
       st.opens.find? (fun r => decide (r.id = reqId)) = some tr →
       tr.openedAt = none → tr.openCount = some c →
       (((trackOpenRoute ((trackOpenRoute st reqId now1 evId1 ua ip).1)
           reqId now2 evId2 ua ip).1.opens.find?
             (fun r => decide (r.id = reqId)) =
         some { tr with openedAt := some now1, openCount := some (c + 2) }) ∧
        ((trackOpenRoute ((trackOpenRoute st reqId now1 evId1 ua ip).1)
           reqId now2 evId2 ua ip).1.events =
         st.events ++
           [{ id := evId1, userId := tr.userId, messageId := tr.messageId,
              eventType := "opened", recipientEmail := tr.recipientEmail,
              sendingDomain := tr.sendingDomain,
              ipAddress := some (takeStr 45 ip),
              userAgent := some (takeStr 500 ua),
              metadata := some (.openedMeta reqId (c + 1)) }]))) := by
  have hmain : ∀ (st : TrackState) (reqId : String) (now : Nat)
      (evId ua ip : String) (tr : OpenRow),
      st.opens.find? (fun r => decide (r.id = reqId)) = some tr →
      (trackOpenRoute st reqId now evId ua ip).1 =
        { opens := st.opens.map (fun r => if r.id = reqId then
            { r with openedAt := some (tr.openedAt.getD now),
                     openCount := r.openCount.map (fun x => x + 1) } else r),
          events := if tr.openedAt = none then
            st.events ++
              [{ id := evId, userId := tr.userId, messageId := tr.messageId,
                 eventType := "opened", recipientEmail := tr.recipientEmail,
                 sendingDomain := tr.sendingDomain,
                 ipAddress := some (takeStr 45 ip),
                 userAgent := some (takeStr 500 ua),
                 metadata := some (.openedMeta reqId (tr.openCount.getD 0 + 1)) }]
            else st.events } := by
    intro st reqId now evId ua ip tr hfind
    simp only [trackOpenRoute]
    rw [if_neg (by simp)]
    split
    · rename_i heq
      rw [hfind] at heq
      exact absurd heq (by simp)
    · rename_i tr2 heq
      rw [hfind] at heq
      injection heq with htr
      subst htr
      rw [if_neg (by simp)]
      by_cases hop : tr.openedAt = none
      · rw [if_pos hop, if_neg (by simp), if_pos hop]
      · rw [if_neg hop, if_neg hop]
  have hfindmap : ∀ (st : TrackState) (reqId : String) (now : Nat)
      (evId ua ip : String) (tr : OpenRow),
      st.opens.find? (fun r => decide (r.id = reqId)) = some tr →
      (trackOpenRoute st reqId now evId ua ip).1.opens.find?
          (fun r => decide (r.id = reqId)) =
        some { tr with openedAt := some (tr.openedAt.getD now),
                       openCount := tr.openCount.map (fun x => x + 1) } := by
    intro st reqId now evId ua ip tr hfind
    have htrid : tr.id = reqId := by
      have := List.find?_some hfind
      simpa using this
    rw [hmain st reqId now evId ua ip tr hfind]
    show (st.opens.map _).find? _ = _
    rw [find?_map_pres st.opens (fun r => decide (r.id = reqId))
        (fun r => if r.id = reqId then
          { r with openedAt := some (tr.openedAt.getD now),
                   openCount := r.openCount.map (fun x => x + 1) } else r)
        (fun x => by by_cases h : x.id = reqId <;> simp [h]), hfind]
    simp only [Option.map_some']
    rw [if_pos htrid]
  refine ⟨?_, ?_, ?_, ?_, ?_⟩
  · intro st reqId now evId ua ip dbFail
    rfl
  · exact ⟨by decide, rfl, rfl, rfl⟩
  · intro st reqId now evId ua ip hfind
    simp only [trackOpenRoute]
    rw [if_neg (by simp), hfind]
  · intro st reqId now evId ua ip tr hfind
    exact ⟨hfindmap st reqId now evId ua ip tr hfind,
           by rw [hmain st reqId now evId ua ip tr hfind]⟩
  · intro st reqId now1 now2 evId1 evId2 ua ip tr c hfind hop hc
    have hfind1 := hfindmap st reqId now1 evId1 ua ip tr hfind
    rw [hop] at hfind1
    rw [hc] at hfind1
    have hfind2 := hfindmap _ reqId now2 evId2 ua ip _ hfind1
    have hev1 : (trackOpenRoute st reqId now1 evId1 ua ip).1.events =
        st.events ++
          [{ id := evId1, userId := tr.userId, messageId := tr.messageId,
             eventType := "opened", recipientEmail := tr.recipientEmail,
             sendingDomain := tr.sendingDomain,
             ipAddress := some (takeStr 45 ip),
             userAgent := some (takeStr 500 ua),
             metadata := some (.openedMeta reqId (c + 1)) }] := by
      rw [hmain st reqId now1 evId1 ua ip tr hfind, if_pos hop]
      simp [hc]
    have hev2 := (hmain _ reqId now2 evId2 ua ip _ hfind1).symm
    refine ⟨?_, ?_⟩
    · rw [hfind2]
      simp
      omega
    · rw [hmain _ reqId now2 evId2 ua ip _ hfind1]
      rw [if_neg (by simp)]
      exact hev1


theorem trackOpen_gif_and_first_open_witness :
    ((trackOpenRoute ((trackOpenRoute ⟨[openTrk], []⟩ "g2_g5" 10 "e1" "ua" "ip").1)
        "g2_g5" 11 "e2" "ua" "ip").1.opens.find?
          (fun r => decide (r.id = "g2_g5")) =
      some { openTrk with openedAt := some 10, openCount := some ((0 : Int) + 2) }) ∧
    ((trackOpenRoute ((trackOpenRoute ⟨[openTrk], []⟩ "g2_g5" 10 "e1" "ua" "ip").1)
        "g2_g5" 11 "e2" "ua" "ip").1.events =
      ([] : List EmailEvent) ++
        [{ id := "e1", userId := openTrk.userId, messageId := openTrk.messageId,
           eventType := "opened", recipientEmail := openTrk.recipientEmail,
           sendingDomain := openTrk.sendingDomain,
           ipAddress := some (takeStr 45 "ip"),
           userAgent := some (takeStr 500 "ua"),
           metadata := some (.openedMeta "g2_g5" ((0 : Int) + 1)) }]) :=
  trackOpen_gif_and_first_open.2.2.2.2 ⟨[openTrk], []⟩ "g2_g5" 10 11 "e1" "e2"
    "ua" "ip" openTrk 0 (by decide) rfl rfl


/-- Replacing every `c` leaves no `c` when the replacement has none. -/
theorem replaceChar_not_mem_self (c : Char) (repl : List Char)
    (hc : c ∉ repl) : ∀ l, c ∉ replaceChar c repl l := by
  intro l
  induction l with
  | nil => simp [replaceChar]
  | cons x l ih =>
      by_cases h : x = c
      · simp only [replaceChar, if_pos h]
        intro hmem
        rcases List.mem_append.mp hmem with h1 | h1
        · exact hc h1
        · exact ih h1
      · simp only [replaceChar, if_neg h]
        intro hmem
        rcases List.mem_cons.mp hmem with h1 | h1
        · exact h h1.symm
        · exact ih h1

/-- Replacing one character introduces no character absent from both the
input and the replacement. -/
theorem replaceChar_pres_not_mem (x c : Char) (repl : List Char)
    (hx : x ∉ repl) : ∀ l, x ∉ l → x ∉ replaceChar c repl l := by
  intro l
  induction l with
  | nil => intro _; simp [replaceChar]
  | cons y l ih =>
      intro hl
      have hy : x ≠ y := fun hxy => hl (hxy ▸ List.mem_cons_self y l)
      have hl2 : x ∉ l := fun h2 => hl (List.mem_cons_of_mem y h2)
      by_cases h : y = c
      · simp only [replaceChar, if_pos h]
        intro hmem
        rcases List.mem_append.mp hmem with h1 | h1
        · exact hx h1
        · exact ih hl2 h1
      · simp only [replaceChar, if_neg h]
        intro hmem
        rcases List.mem_cons.mp hmem with h1 | h1
        · exact hy h1
        · exact ih hl2 h1

/-- The escaped form of any value contains no literal `<`. -/
theorem escapeHtml_no_lt (v : String) : '<' ∉ (escapeHtml v).toList := by
  show '<' ∉ replaceChar apostChar "&#039;".toList _
  apply replaceChar_pres_not_mem _ _ _ (by decide)
  apply replaceChar_pres_not_mem _ _ _ (by decide)
  apply replaceChar_pres_not_mem _ _ _ (by decide)
  exact replaceChar_not_mem_self '<' _ (by decide) _

/-- A successful token match returns a suffix of the input. -/
theorem matchTokens_suffix (ts : List Tok) (l r : List Char)
    (h : matchTokens ts l = some r) : r <:+ l := by
  induction ts generalizing l r with
  | nil =>
      simp only [matchTokens, Option.some.injEq] at h
      exact h ▸ List.suffix_refl l
  | cons t ts ih =>
      cases t with
      | lit c =>
          cases l with
          | nil => simp [matchTokens] at h
          | cons x l =>
              simp only [matchTokens] at h
              split at h
              · exact (ih l r h).trans (List.suffix_cons x l)
              · exact absurd h (by simp)
      | anyChar =>
          cases l with
          | nil => simp [matchTokens] at h
          | cons x l =>
              simp only [matchTokens] at h
              split at h
              · exact absurd h (by simp)
              · exact (ih l r h).trans (List.suffix_cons x l)
      | ws =>
          cases l with
          | nil => simp [matchTokens] at h
          | cons x l =>
              simp only [matchTokens] at h
              split at h
              · exact (ih l r h).trans (List.suffix_cons x l)
              · exact absurd h (by simp)
      | wsStar =>
          simp only [matchTokens] at h
          exact (ih _ r h).trans (List.dropWhile_suffix _)

/-- A replacement text with no `$` is spliced verbatim. -/
theorem getSubstitution_no_dollar (matched pre suf : List Char)
    (repl : List Char) (h : '$' ∉ repl) :
    getSubstitution matched pre suf repl = repl := by
  induction repl with
  | nil => rfl
  | cons c rest ih =>
      have hc : c ≠ '$' := fun hceq => h (hceq ▸ List.mem_cons_self c rest)
      have hrest : '$' ∉ rest := fun h2 => h (List.mem_cons_of_mem c h2)
      rw [getSubstitution.eq_def]
      simp only [if_neg hc]
      rw [ih hrest]

/-- Global replacement with a replacement text free of both `x` and `$`
(so no directive re-splices subject text) never increases the number of
`x`s. -/
theorem replaceTokensF_count_le (ts : List Tok) (repl : List Char) (x : Char)
    (hx : x ∉ repl) (hd : '$' ∉ repl) : ∀ (fuel : Nat) (pre l : List Char),
    (replaceTokensF ts repl fuel pre l).count x ≤ l.count x := by
  intro fuel
  have h0 : repl.count x = 0 := List.count_eq_zero.mpr hx
  induction fuel with
  | zero => intro pre l; cases l <;> simp [replaceTokensF]
  | succ fuel ih =>
      intro pre l
      cases l with
      | nil => simp [replaceTokensF]
      | cons c l =>
          simp only [replaceTokensF]
          split
          · rename_i r hm
            rw [getSubstitution_no_dollar _ _ _ _ hd]
            have hcount : r.count x ≤ (c :: l).count x :=
              (matchTokens_suffix ts _ _ hm).sublist.count_le x
            by_cases hlen : r.length < l.length + 1
            · rw [if_pos hlen, List.count_append]
              have := ih (pre ++ (c :: l).take ((c :: l).length - r.length)) r
              omega
            · rw [if_neg hlen, List.count_append]
              omega
          · rename_i hm
            have := ih (pre ++ [c]) l
            simp only [List.count_cons]
            omega

/-- Escaping neither produces nor consumes `$` (no entity contains
one). -/
theorem escapeHtml_no_dollar (v : String) (h : '$' ∉ v.toList) :
    '$' ∉ (escapeHtml v).toList := by
  show '$' ∉ replaceChar apostChar "&#039;".toList _
  apply replaceChar_pres_not_mem _ _ _ (by decide)
  apply replaceChar_pres_not_mem _ _ _ (by decide)
  apply replaceChar_pres_not_mem _ _ _ (by decide)
  apply replaceChar_pres_not_mem _ _ _ (by decide)
  exact replaceChar_pres_not_mem _ _ _ (by decide) _ h

/-- The caller-variable pass, on `$`-free values, only ever splices
escaped values verbatim, so it never increases the number of literal
`<`s. -/
theorem applyVarLoop_count_lt_le :
    ∀ (vars : List (String × String)) (subj html s2 h2 : String),
    (∀ p ∈ vars, '$' ∉ (p.2 : String).toList) →
    applyVarLoop vars subj html = .ok (s2, h2) →
    s2.toList.count '<' ≤ subj.toList.count '<' ∧
    h2.toList.count '<' ≤ html.toList.count '<' := by
  intro vars
  induction vars with
  | nil =>
      intro subj html s2 h2 _ h
      simp only [applyVarLoop, Except.ok.injEq, Prod.mk.injEq] at h
      obtain ⟨h1, h2'⟩ := h
      subst h1
      subst h2'
      exact ⟨Nat.le_refl _, Nat.le_refl _⟩
  | cons kv rest ih =>
      intro subj html s2 h2 hdol h
      obtain ⟨k, v⟩ := kv
      have hv : '$' ∉ v.toList := hdol (k, v) (List.mem_cons_self _ _)
      have hdol2 : ∀ p ∈ rest, '$' ∉ (p.2 : String).toList :=
        fun p hp => hdol p (List.mem_cons_of_mem _ hp)
      simp only [applyVarLoop] at h
      split at h
      · exact absurd h (by simp)
      · rename_i ts hts
        have hrec := ih _ _ _ _ hdol2 h
        have hs := replaceTokensF_count_le ts (escapeHtml v).toList '<'
          (escapeHtml_no_lt v) (escapeHtml_no_dollar v hv)
          subj.toList.length [] subj.toList
        have hh := replaceTokensF_count_le ts (escapeHtml v).toList '<'
          (escapeHtml_no_lt v) (escapeHtml_no_dollar v hv)
          html.toList.length [] html.toList
        exact ⟨Nat.le_trans hrec.1 hs, Nat.le_trans hrec.2 hh⟩

/-- The default-value pass likewise splices only escaped `$`-free
defaults verbatim. -/
theorem applyDefaultsLoop_count_lt_le :
    ∀ (vds : List TemplateVarDef) (subj html s2 h2 : String),
    (∀ vd ∈ vds, ∀ d, vd.defaultValue = some d → '$' ∉ d.toList) →
    applyDefaultsLoop vds subj html = .ok (s2, h2) →
    s2.toList.count '<' ≤ subj.toList.count '<' ∧
    h2.toList.count '<' ≤ html.toList.count '<' := by
  intro vds
  induction vds with
  | nil =>
      intro subj html s2 h2 _ h
      simp only [applyDefaultsLoop, Except.ok.injEq, Prod.mk.injEq] at h
      obtain ⟨h1, h2'⟩ := h
      subst h1
      subst h2'
      exact ⟨Nat.le_refl _, Nat.le_refl _⟩
  | cons vd rest ih =>
      intro subj html s2 h2 hdol h
      have hdol2 : ∀ v ∈ rest, ∀ d, v.defaultValue = some d → '$' ∉ d.toList :=
        fun v hv => hdol v (List.mem_cons_of_mem _ hv)
      simp only [applyDefaultsLoop] at h
      split at h
      · rename_i d hd
        split at h
        · exact ih _ _ _ _ hdol2 h
        · split at h
          · exact absurd h (by simp)
          · rename_i ts hts
            have hdfree : '$' ∉ d.toList :=
              hdol vd (List.mem_cons_self _ _) d hd
            have hrec := ih _ _ _ _ hdol2 h
            have hs := replaceTokensF_count_le ts (escapeHtml d).toList '<'
              (escapeHtml_no_lt d) (escapeHtml_no_dollar d hdfree)
              subj.toList.length [] subj.toList
            have hh := replaceTokensF_count_le ts (escapeHtml d).toList '<'
              (escapeHtml_no_lt d) (escapeHtml_no_dollar d hdfree)
              html.toList.length [] html.toList
            exact ⟨Nat.le_trans hrec.1 hs, Nat.le_trans hrec.2 hh⟩
      · exact ih _ _ _ _ hdol2 h

/-- C8 counterexample: `String.replace` `$`-directives survive the
escaping chain (`$` and backtick are not escaped), so the value `` $` ``
— which contains neither `<` nor `<script>` via escaping — re-splices
the raw template prefix: the rendered subject and html each gain a
second literal `<` that did not come from any escaped value; the
substituted text is the template prefix, not the escaped value. -/
theorem renderTemplate_dollar_directive_counterexample :
    (escapeHtml (String.mk ['$', backtickChar]) =
      String.mk ['$', backtickChar]) ∧
    renderTemplate [tmplC8d] "t2" "u1" [("k", String.mk ['$', backtickChar])] =
      .ok (some { subject := "<b><b>", html := "<i><i>", templateId := "t2" }) ∧
    tmplC8d.subject.toList.count '<' = 1 ∧
    "<b><b>".toList.count '<' = 2 := by
  refine ⟨by rfl, by rfl, by decide, by decide⟩

/-- C8 (amended): values are HTML-escaped — `& < > \" '` become
entities, and the escaped form of any value has no literal `<` — but the
escaped text is then spliced as a `String.replace` replacement, whose
`$`-directives can re-splice raw template text.  For `$`-free caller
values (and `$`-free declared defaults) the splice is verbatim, and only
then a rendered subject or html never holds more literal `<`s than its
template text: no `<` (in particular none of a `<script>`) ever
originates from such a value. -/
theorem renderTemplate_escapes_values :
    (∀ v : String, '<' ∉ (escapeHtml v).toList) ∧
    (escapeHtml (String.mk ['&', '<', '>', '"', apostChar]) =
      "&amp;&lt;&gt;&quot;&#039;") ∧
    (escapeHtml "<script>alert(1)</script>" =
      "&lt;script&gt;alert(1)&lt;/script&gt;") ∧
    (∀ (templates : List TemplateRow) (idOrSlug userId : String)
       (vars : List (String × String)) (r : RenderedTemplate),
       (∀ p ∈ vars, '$' ∉ (p.2 : String).toList) →
       (∀ t ∈ templates, ∀ vd ∈ t.varDefs, ∀ d,
         vd.defaultValue = some d → '$' ∉ d.toList) →
       renderTemplate templates idOrSlug userId vars = .ok (some r) →
       ∃ t ∈ templates, t.userId = userId ∧ t.isActive = true ∧
         (t.id = idOrSlug ∨ t.slug = idOrSlug) ∧ r.templateId = t.id ∧
         r.subject.toList.count '<' ≤ t.subject.toList.count '<' ∧
         r.html.toList.count '<' ≤ t.htmlContent.toList.count '<') := by
  refine ⟨escapeHtml_no_lt, by rfl, by rfl, ?_⟩
  intro templates idOrSlug userId vars r hvdol hddol h
  simp only [renderTemplate] at h
  split at h
  · exact absurd h (by simp)
  · rename_i t heq
    have htmem : t ∈ templates ∧ t.userId = userId ∧ t.isActive = true ∧
        (t.id = idOrSlug ∨ t.slug = idOrSlug) := by
      split at heq
      · rename_i t2 hfind
        injection heq with ht2
        subst ht2
        have hmem := List.mem_of_find?_eq_some hfind
        have hp := List.find?_some hfind
        simp at hp
        exact ⟨hmem, hp.1.2, hp.2, Or.inl hp.1.1⟩
      · have hmem := List.mem_of_find?_eq_some heq
        have hp := List.find?_some heq
        simp at hp
        exact ⟨hmem, hp.1.2, hp.2, Or.inr hp.1.1⟩
    split at h
    · exact absurd h (by simp)
    · rename_i s1 h1 hvar
      split at h
      · exact absurd h (by simp)
      · rename_i s2 h2 hdef
        simp only [Except.ok.injEq, Option.some.injEq] at h
        subst h
        have hv := applyVarLoop_count_lt_le vars t.subject t.htmlContent
          s1 h1 hvdol hvar
        have hd := applyDefaultsLoop_count_lt_le t.varDefs s1 h1 s2 h2
          (hddol t htmem.1) hdef
        exact ⟨t, htmem.1, htmem.2.1, htmem.2.2.1, htmem.2.2.2, rfl,
               Nat.le_trans hd.1 hv.1, Nat.le_trans hd.2 hv.2⟩


theorem renderTemplate_escapes_values_witness :
    ∃ t ∈ [tmplC10], t.userId = "u1" ∧ t.isActive = true ∧
      (t.id = "t1" ∨ t.slug = "t1") ∧ rc8.templateId = t.id ∧
      rc8.subject.toList.count '<' ≤ t.subject.toList.count '<' ∧
      rc8.html.toList.count '<' ≤ t.htmlContent.toList.count '<' :=
  renderTemplate_escapes_values.2.2.2 [tmplC10] "t1" "u1"
    [("axb", "<script>alert(1)</script>")] rc8 (by decide) (by decide) (by rfl)


/-- The allocation loop keeps one entry per distinct URL (first
occurrence order), each with a click-tracking URL built from its id. -/
theorem allocLinks_spec (idOf : Nat → String) (baseUrl : String) :
    ∀ (urls : List String) (acc : List LinkTrackingData),
    ((acc.map (fun l => l.originalUrl)).Nodup →
      ((allocLinks idOf baseUrl urls acc).map (fun l => l.originalUrl)).Nodup) ∧
    ((∀ l ∈ acc, l.trackingUrl = buildClickTrackingUrl baseUrl l.trackingId) →
      ∀ l ∈ allocLinks idOf baseUrl urls acc,
        l.trackingUrl = buildClickTrackingUrl baseUrl l.trackingId) ∧
    (∀ u, u ∈ (allocLinks idOf baseUrl urls acc).map (fun l => l.originalUrl) ↔
      u ∈ urls ∨ u ∈ acc.map (fun l => l.originalUrl)) := by
  intro urls
  induction urls with
  | nil =>
      intro acc
      refine ⟨fun h => h, fun h => h, fun u => ?_⟩
      simp [allocLinks]
  | cons v rest ih =>
      intro acc
      by_cases hc : v ∈ acc.map (fun l => l.originalUrl)
      · have hcb : (acc.map (fun l => l.originalUrl)).contains v = true :=
          List.elem_iff.mpr hc
        simp only [allocLinks]
        rw [if_pos hcb]
        refine ⟨(ih acc).1, (ih acc).2.1, fun u => ?_⟩
        rw [(ih acc).2.2 u]
        constructor
        · rintro (h | h)
          · exact Or.inl (List.mem_cons_of_mem v h)
          · exact Or.inr h
        · rintro (h | h)
          · rcases List.mem_cons.mp h with rfl | h2
            · exact Or.inr hc
            · exact Or.inl h2
          · exact Or.inr h
      · have hcb : ¬((acc.map (fun l => l.originalUrl)).contains v = true) :=
          fun habs => hc (List.elem_iff.mp habs)
        simp only [allocLinks]
        rw [if_neg hcb]
        refine ⟨?_, ?_, fun u => ?_⟩
        · intro hnd
          apply (ih _).1
          rw [List.map_append]
          refine List.nodup_append.mpr ⟨hnd, by simp, ?_⟩
          intro x hx hmem
          simp only [List.map_cons, List.map_nil, List.mem_singleton] at hmem
          subst hmem
          exact hc hx
        · intro hprop
          apply (ih _).2.1
          intro l hl
          rcases List.mem_append.mp hl with h1 | h1
          · exact hprop l h1
          · have hle : l = ⟨idOf (acc.length + 1), v,
                buildClickTrackingUrl baseUrl (idOf (acc.length + 1))⟩ := by
              simpa using h1
            subst hle
            rfl
        · rw [(ih _).2.2 u, List.map_append]
          simp only [List.map_cons, List.map_nil, List.mem_append,
            List.mem_singleton, List.mem_cons]
          tauto

/-- A URL present among the link records resolves through the link map
to that record's tracking URL. -/
theorem lookupAssoc_linkMapOf (links : List LinkTrackingData) (u : String)
    (hu : u ∈ links.map (fun l => l.originalUrl)) :
    ∃ l ∈ links, l.originalUrl = u ∧
      lookupAssoc (linkMapOf links) u = some l.trackingUrl := by
  unfold lookupAssoc linkMapOf
  rw [List.find?_map]
  have hex : (links.find? ((fun p => decide (p.1 = u)) ∘
      (fun l => (l.originalUrl, l.trackingUrl)))).isSome := by
    rw [List.find?_isSome]
    obtain ⟨l, hl, hlu⟩ := List.mem_map.mp hu
    exact ⟨l, hl, by simp [Function.comp, hlu]⟩
  obtain ⟨l0, hfind⟩ := Option.isSome_iff_exists.mp hex
  have hmem := List.mem_of_find?_eq_some hfind
  have hp := List.find?_some hfind
  simp [Function.comp] at hp
  refine ⟨l0, hmem, hp, ?_⟩
  rw [hfind]
  rfl

/-- `findCISub` returns the first case-insensitive occurrence, and
`none` exactly when there is none. -/
theorem findCISub_spec (needle : List Char) : ∀ (l : List Char),
    (∀ i, findCISub needle l = some i →
      startsWithCI needle (l.drop i) = true ∧
      ∀ j, j < i → startsWithCI needle (l.drop j) = false) ∧
    (findCISub needle l = none →
      ∀ j, startsWithCI needle (l.drop j) = false) := by
  intro l
  induction l with
  | nil =>
      constructor
      · intro i hi
        simp only [findCISub] at hi
        split at hi
        · rename_i hne
          injection hi with h0
          subst h0
          refine ⟨?_, fun j hj => absurd hj (by omega)⟩
          cases needle with
          | nil => rfl
          | cons p ps => simp at hne
        · exact absurd hi (by simp)
      · intro hnone j
        simp only [findCISub] at hnone
        split at hnone
        · exact absurd hnone (by simp)
        · rename_i hne
          cases needle with
          | nil => simp at hne
          | cons p ps =>
              rw [List.drop_nil]
              rfl
  | cons x rest ih =>
      constructor
      · intro i hi
        simp only [findCISub] at hi
        split at hi
        · rename_i hsw
          injection hi with h0
          subst h0
          exact ⟨hsw, fun j hj => absurd hj (by omega)⟩
        · rename_i hsw
          simp only [Option.map_eq_some'] at hi
          obtain ⟨i2, hi2, hival⟩ := hi
          subst hival
          have hrec := (ih.1 i2 hi2)
          refine ⟨hrec.1, ?_⟩
          intro j hj
          cases j with
          | zero => exact Bool.eq_false_iff.mpr hsw
          | succ j2 => exact hrec.2 j2 (by omega)
      · intro hnone j
        simp only [findCISub] at hnone
        split at hnone
        · exact absurd hnone (by simp)
        · rename_i hsw
          rw [Option.map_eq_none'] at hnone
          cases j with
          | zero => exact Bool.eq_false_iff.mpr hsw
          | succ j2 => exact ih.2 hnone j2

set_option maxRecDepth 8192 in
/-- C7: email tracking rewrites every matched anchor whose URL is not
excluded (`unsubscribe`/`optout`/`mailto:`/`tel:`/`#`, case-insensitive
substring test) to `baseUrl/t/c/{clickId}` keeping the surrounding
attribute text; excluded anchors are kept verbatim; identical URLs share
a single click id (one link record per distinct URL); and the open pixel
is spliced in at the first case-insensitive `</body>`, or appended at
the end when there is none.  A concrete run shows all four at once. -/
theorem applyEmailTracking_rewrite :
    (∀ (idOf : Nat → String) (baseUrl html : String),
       (((applyEmailTracking idOf baseUrl html).links.map
           (fun l => l.originalUrl)).Nodup) ∧
       (∀ u, u ∈ (applyEmailTracking idOf baseUrl html).links.map
           (fun l => l.originalUrl) ↔ u ∈ extractLinksFromHtml html) ∧
       (∀ l ∈ (applyEmailTracking idOf baseUrl html).links,
           l.trackingUrl = buildClickTrackingUrl baseUrl l.trackingId)) ∧
    (∀ (idOf : Nat → String) (baseUrl html : String) (a : AnchorMatch),
       a ∈ anchorsOf html →
       (shouldExcludeUrl (String.mk a.url) = true →
         renderSeg (linkMapOf (applyEmailTracking idOf baseUrl html).links)
           (.anchor a) = a.raw) ∧
       (shouldExcludeUrl (String.mk a.url) = false →
         ∃ l ∈ (applyEmailTracking idOf baseUrl html).links,
           l.originalUrl = String.mk a.url ∧
           renderSeg (linkMapOf (applyEmailTracking idOf baseUrl html).links)
             (.anchor a) =
             ('<' :: 'a' :: ' ' :: a.before) ++ "href=\"".toList ++
               (buildClickTrackingUrl baseUrl l.trackingId).toList ++
               ['"'] ++ a.after ++ ['>'])) ∧
    (∀ (html2 pixelUrl : String),
       (∀ i, findCISub "</body>".toList html2.toList = some i →
         injectOpenTracker html2 pixelUrl =
           String.mk (html2.toList.take i ++
             (trackingPixelHtml pixelUrl ++ "</body>").toList ++
             html2.toList.drop (i + 7)) ∧
         startsWithCI "</body>".toList (html2.toList.drop i) = true ∧
         ∀ j, j < i →
           startsWithCI "</body>".toList (html2.toList.drop j) = false) ∧
       (findCISub "</body>".toList html2.toList = none →
         injectOpenTracker html2 pixelUrl = html2 ++ trackingPixelHtml pixelUrl ∧
         ∀ j, startsWithCI "</body>".toList (html2.toList.drop j) = false)) ∧
    (∀ (idOf : Nat → String) (baseUrl html : String),
       (applyEmailTracking idOf baseUrl html).modifiedHtml =
         injectOpenTracker
           (wrapLinksForTracking html
             (linkMapOf (applyEmailTracking idOf baseUrl html).links))
           (buildOpenTrackingUrl baseUrl (idOf 0)) ∧
       (applyEmailTracking idOf baseUrl html).openTrackingId = idOf 0) ∧
    (applyEmailTracking genTrk "http://t" htmlC7 =
      { modifiedHtml :=
          "<html><a href=\"http://t/t/c/id1\">L</a>" ++
          "<a href=\"http://t/t/c/id1\">M</a><a href=\"mailto:q\">N</a>" ++
          "<img src=\"http://t/t/o/id0\" width=\"1\" height=\"1\" alt=\"\" " ++
          "style=\"display:none;width:1px;height:1px;border:0;\" />" ++
          "</body></html>",
        openTrackingId := "id0",
        links := [{ trackingId := "id1", originalUrl := "https://z",
                    trackingUrl := "http://t/t/c/id1" }] }) := by
  have hlinks : ∀ (idOf : Nat → String) (baseUrl html : String),
      (applyEmailTracking idOf baseUrl html).links =
        allocLinks idOf baseUrl (extractLinksFromHtml html) [] := by
    intro idOf baseUrl html
    rfl
  refine ⟨?_, ?_, ?_, ?_, ?_⟩
  · intro idOf baseUrl html
    rw [hlinks]
    refine ⟨(allocLinks_spec idOf baseUrl _ []).1 (by simp), fun u => ?_,
            (allocLinks_spec idOf baseUrl _ []).2.1 (by intro l hl; cases hl)⟩
    rw [(allocLinks_spec idOf baseUrl _ []).2.2 u]
    simp
  · intro idOf baseUrl html a ha
    constructor
    · intro hex
      simp only [renderSeg]
      rw [if_pos hex]
    · intro hex
      have hurl : String.mk a.url ∈ extractLinksFromHtml html := by
        unfold extractLinksFromHtml
        exact List.mem_filterMap.mpr ⟨a, ha, by simp [hex]⟩
      have hukeys : String.mk a.url ∈
          (applyEmailTracking idOf baseUrl html).links.map
            (fun l => l.originalUrl) := by
        rw [hlinks]
        exact ((allocLinks_spec idOf baseUrl _ []).2.2 _).mpr (Or.inl hurl)
      obtain ⟨l, hl, hlu, hlook⟩ := lookupAssoc_linkMapOf _ _ hukeys
      have hturl : l.trackingUrl = buildClickTrackingUrl baseUrl l.trackingId := by
        apply (allocLinks_spec idOf baseUrl (extractLinksFromHtml html) []).2.1
          (by intro x hx; cases hx)
        rw [← hlinks]
        exact hl
      refine ⟨l, hl, hlu, ?_⟩
      simp only [renderSeg]
      rw [if_neg (by simp [hex]), hlook, hturl]
      rfl
  · intro html2 pixelUrl
    constructor
    · intro i hi
      refine ⟨?_, ((findCISub_spec _ html2.toList).1 i hi).1,
              ((findCISub_spec _ html2.toList).1 i hi).2⟩
      unfold injectOpenTracker
      rw [hi]
    · intro hnone
      refine ⟨?_, (findCISub_spec _ html2.toList).2 hnone⟩
      unfold injectOpenTracker
      rw [hnone]
  · intro idOf baseUrl html
    exact ⟨rfl, rfl⟩
  · rfl


set_option maxRecDepth 8192 in
theorem applyEmailTracking_rewrite_witness :
    ∃ l ∈ (applyEmailTracking genTrk "http://t" htmlC7).links,
      l.originalUrl = String.mk anchC7.url ∧
      renderSeg (linkMapOf (applyEmailTracking genTrk "http://t" htmlC7).links)
        (.anchor anchC7) =
        ('<' :: 'a' :: ' ' :: anchC7.before) ++ "href=\"".toList ++
          (buildClickTrackingUrl "http://t" l.trackingId).toList ++
          ['"'] ++ anchC7.after ++ ['>'] :=
  (applyEmailTracking_rewrite.2.1 genTrk "http://t" htmlC7 anchC7
    (by decide)).2 (by decide)

end Hantara
